import Mathlib

/-!
Verification of the multi-agent orchestration backend (proto-build-template).

This file gives a shallow embedding, in Lean 4, of the core components of the
repository:

* `backend/app/services/template_agent_executor.py` — the dependency-ordered
  executor (`execute_agent_template`, `execute_multiple_templates`, the text
  post-processors and the confidence heuristic);
* `backend/app/agents/handoff_coordinator.py` — the handoff coordinator
  (`evaluate_handoff_needs`, `create_workload_assignments`,
  `synthesize_responses`);
* `backend/app/services/epic_stories_pipeline.py` — the epic/stories pipeline
  orchestrator (`_run_pipeline`, `_extract_epics_from_result`).

External LLM calls are modelled by an oracle `LLMOracle : String → Except
String String` mapping the full prompt of a call to either the generated
content or the message of the exception the provider raised.  Each issued call
is recorded in a `CallRecord` log, so "no LLM call is made" is expressible as
the log being empty.  Wall-clock quantities (`execution_time`, timestamps) are
modelled as the constant `0`; they are irrelevant to all verified properties.
-/

namespace ProtoBuild

/-- Embedding of the `AgentTemplateType` enum of
`backend/app/models/agent_templates.py`. -/
inductive AgentTemplateType where
  | UI_DESIGNER
  | UX_RESEARCHER
  | DEVELOPER
  | PRODUCT_MANAGER
  | STAKEHOLDER
  | COMPANY_COMPETITOR
  | CRITIQUE
  | COACH
  | RERUN
  | QUESTIONS
  | DATA_SCIENTIST
  | MARKETING_SPECIALIST
  | ACCESSIBILITY_EXPERT
  | PERFORMANCE_ENGINEER
  | CONTENT_STRATEGIST
  | QA_ENGINEER
  | SYNTHESIZER
  | PRD_CREATOR
  | DEVELOPMENT_PLANNER
  | LEGO_BUILDER
  | EPICS_GENERATOR
  | STORIES_GENERATOR
deriving DecidableEq, Repr

/-- Embedding of the `AgentTemplate` pydantic model
(`backend/app/models/agent_templates.py`, lines 41-53).  The cosmetic fields
(`color`, `icon`) and the timestamps are omitted: the executor never reads
them.  The pydantic model declares no `depends_on` field; the executor reads
it with `getattr(template, 'depends_on', []) or []`
(`template_agent_executor.py`, lines 382 and 420), so `depends_on` here is the
value that expression produces — a list of template ids, empty by default. -/
structure AgentTemplate where
  id : String
  name : String
  type : AgentTemplateType
  description : String := ""
  prompt : String := ""
  is_active : Bool := true
  is_custom : Bool := false
  depends_on : List String := []
deriving DecidableEq, Repr

/-- Embedding of the `AgentExecutionResult` pydantic model
(`backend/app/models/agent_templates.py`, lines 84-98).  Python floats are
modelled as rationals; `execution_time` (wall clock) is always `0` in the
model. -/
structure AgentExecutionResult where
  template_id : String
  agent_name : String
  content : String
  suggestions : List String := []
  questions : List String := []
  critique : Option String := none
  confidence_level : ℚ := 0
  execution_time : ℚ := 0
  alternative_ideas : List String := []
  rerun_results : List String := []
  competitor_analysis : Option String := none
deriving DecidableEq, Repr

/-- Worker for `pySplitWhitespace`: scan the characters, accumulating the
current word reversed; emit a word at every whitespace boundary. -/
def pyWordsGo : List Char → List Char → List String
  | [], cur => if cur.isEmpty then [] else [cur.reverse.asString]
  | c :: cs, cur =>
      if c.isWhitespace then
        (if cur.isEmpty then [] else [cur.reverse.asString]) ++ pyWordsGo cs []
      else pyWordsGo cs (c :: cur)

/-- Python `str.split()` with no argument: split on whitespace runs, dropping
empty pieces. -/
def pySplitWhitespace (s : String) : List String :=
  pyWordsGo s.toList []

/-- Boolean prefix test on character lists. -/
def isPrefixChars : List Char → List Char → Bool
  | [], _ => true
  | _ :: _, [] => false
  | a :: p, b :: l => a == b && isPrefixChars p l

/-- Boolean substring test on character lists. -/
def containsChars (p : List Char) : List Char → Bool
  | [] => p.isEmpty
  | c :: rest => isPrefixChars p (c :: rest) || containsChars p rest

/-- Python `needle in haystack` on strings: substring containment test. -/
def pyInStr (needle haystack : String) : Bool :=
  containsChars needle.toList haystack.toList

/-- Python `str.lower()` (the repository only lowercases ASCII keyword
material). -/
def pyLower (s : String) : String :=
  (s.toList.map Char.toLower).asString

/-- Worker for `pySplitLines`. -/
def splitLinesGo : List Char → List Char → List String
  | [], cur => [cur.reverse.asString]
  | c :: cs, cur =>
      if c = '\n' then cur.reverse.asString :: splitLinesGo cs []
      else splitLinesGo cs (c :: cur)

/-- Python `content.split('\n')`: split at every newline, keeping empty
pieces. -/
def pySplitLines (s : String) : List String :=
  splitLinesGo s.toList []

/-- Python `str.strip()`: remove leading and trailing whitespace. -/
def pyStrip (s : String) : String :=
  ((s.toList.dropWhile Char.isWhitespace).reverse.dropWhile Char.isWhitespace).reverse.asString

/-- Python `str.startswith(pat)`. -/
def pyStartsWith (s pat : String) : Bool :=
  isPrefixChars pat.toList s.toList

/-- Python string `<=` (code-point lexicographic order), as used by
`sorted()`. -/
def charListLe : List Char → List Char → Bool
  | [], _ => true
  | _ :: _, [] => false
  | a :: as, b :: bs => if a = b then charListLe as bs else decide (a < b)

/-- Worker for `pyReplace` with explicit fuel (one unit per character of the
subject suffices, since every step consumes at least one character). -/
def replaceCharsFuel (pat rep : List Char) : Nat → List Char → List Char
  | 0, l => l
  | _ + 1, [] => []
  | fuel + 1, c :: rest =>
      if !pat.isEmpty && isPrefixChars pat (c :: rest) then
        rep ++ replaceCharsFuel pat rep fuel ((c :: rest).drop pat.length)
      else c :: replaceCharsFuel pat rep fuel rest

/-- Python `str.replace(pat, rep)` for a non-empty pattern: left-to-right,
non-overlapping. -/
def pyReplace (s pat rep : String) : String :=
  (replaceCharsFuel pat.toList rep.toList s.toList.length s.toList).asString

/-- Embedding of `TemplateAgentExecutor._extract_suggestions`
(`template_agent_executor.py`, lines 288-299): keep the stripped lines longer
than 20 characters that contain one of the trigger words, capped to 5. -/
def extract_suggestions (content : String) : List String :=
  (((pySplitLines content).map pyStrip).filter (fun line =>
    (["suggest", "recommend", "should", "could", "consider"].any
      (fun kw => pyInStr kw (pyLower line))) && decide (20 < line.length))).take 5

/-- Embedding of `TemplateAgentExecutor._extract_critique`
(`template_agent_executor.py`, lines 301-309): for the critique agent, join
the first 3 lines containing a concern word; `None` for all other types. -/
def extract_critique (content : String) (agent_type : AgentTemplateType) : Option String :=
  if agent_type = .CRITIQUE then
    some (String.intercalate "\n"
      (((pySplitLines content).filter (fun line =>
        ["concern", "issue", "problem", "risk", "challenge"].any
          (fun kw => pyInStr kw (pyLower line)))).take 3))
  else none

/-- Embedding of `TemplateAgentExecutor._extract_competitor_analysis`
(`template_agent_executor.py`, lines 311-316). -/
def extract_competitor_analysis (content : String) : String :=
  String.intercalate "\n"
    (((pySplitLines content).filter (fun line =>
      ["competitor", "market", "advantage", "differentiat"].any
        (fun kw => pyInStr kw (pyLower line)))).take 5)

/-- Embedding of `TemplateAgentExecutor._extract_alternative_ideas`
(`template_agent_executor.py`, lines 318-329). -/
def extract_alternative_ideas (content : String) : List String :=
  (((pySplitLines content).map pyStrip).filter (fun line =>
    (["alternative", "instead", "option", "idea", "approach"].any
      (fun kw => pyInStr kw (pyLower line))) && decide (20 < line.length))).take 5

/-- Embedding of `TemplateAgentExecutor._extract_questions`
(`template_agent_executor.py`, lines 331-343): for each stripped line that
contains a question mark and is longer than 10 characters, keep the text up to
the first question mark with the question mark re-attached
(`line.split('?')[0] + '?'`), capped to 10. -/
def extract_questions (content : String) : List String :=
  ((((pySplitLines content).map pyStrip).filter (fun line =>
      line.toList.contains '?' && decide (10 < line.length))).map
    (fun line => (line.toList.takeWhile (fun c => c ≠ '?')).asString ++ "?")).take 10

/-- Embedding of `TemplateAgentExecutor._calculate_confidence`
(`template_agent_executor.py`, lines 345-357): step function of the word count
of the response. -/
def calculate_confidence (content : String) : ℚ :=
  let word_count := (pySplitWhitespace content).length
  if 300 < word_count then 9/10
  else if 200 < word_count then 8/10
  else if 100 < word_count then 7/10
  else 6/10

/-- Embedding of the dynamic context dict threaded through
`execute_agent_template` (`template_agent_executor.py`, lines 31-65).  An
`Option` field models a key that is absent or Python-falsy; `current_prototype`
holds the `json.dumps` serialization of the prototype state. -/
structure ExecContext where
  conversation_history : List String := []
  current_prototype : Option String := none
  session_preferences : Option String := none
  dependency_results : List AgentExecutionResult := []
deriving DecidableEq, Repr

/-- Python `lst[-5:]`: the last (up to) 5 elements. -/
def lastFive (l : List String) : List String :=
  l.drop (l.length - 5)

/-- Context lines contributed by one dependency result
(`template_agent_executor.py`, lines 54-62): a header with the agent name, the
full content, and the top 3 suggestions when there are any. -/
def depResultParts (r : AgentExecutionResult) : List String :=
  ["\n=== " ++ r.agent_name ++ " ===", r.content]
    ++ (if r.suggestions.isEmpty then []
        else "\nKey Suggestions:" :: (r.suggestions.take 3).map (fun s => "- " ++ s))

/-- Embedding of the `context_parts` construction of `execute_agent_template`
(`template_agent_executor.py`, lines 31-64); the context string is these parts
joined with a newline (line 65). -/
def buildContextParts (ctx : ExecContext) : List String :=
  (if ctx.conversation_history.isEmpty then []
   else "CONVERSATION HISTORY:"
     :: (lastFive ctx.conversation_history).map (fun h => "- " ++ h) ++ [""])
  ++ (match ctx.current_prototype with
      | none => []
      | some p => ["CURRENT PROTOTYPE STATE:", p, ""])
  ++ (match ctx.session_preferences with
      | none => []
      | some s => ["USER PREFERENCES:", s, ""])
  ++ (if ctx.dependency_results.isEmpty then []
      else ("PREVIOUS AGENT ANALYSES:"
        :: ctx.dependency_results.flatMap depResultParts) ++ [""])

/-- Context string passed into the prompt (`template_agent_executor.py`,
line 65). -/
def contextStr (ctx : ExecContext) : String :=
  String.intercalate "\n" (buildContextParts ctx)

/-- Full prompt of a standard agent execution (`template_agent_executor.py`,
lines 68-76). -/
def standardFullPrompt (t : AgentTemplate) (ctx : ExecContext) (user_input : String) : String :=
  t.prompt ++ "\n\nCONTEXT:\n" ++ contextStr ctx ++ "\n\nUSER REQUEST:\n" ++ user_input
    ++ "\n\nPlease provide your analysis and recommendations based on your role as "
    ++ t.name ++ "."

/-- The LLM provider layer, as seen through `llm_manager.generate`: every call
is determined by the full prompt text sent as the user message, and either
returns generated content or raises an exception carrying a message. -/
def LLMOracle : Type := String → Except String String

/-- Record of one issued LLM call: the id of the template being executed, the
execution context it was given, and the full prompt sent. -/
structure CallRecord where
  template_id : String
  context : ExecContext
  prompt : String
deriving DecidableEq, Repr

/-- Embedding of `TemplateAgentExecutor._execute_standard_agent`
(`template_agent_executor.py`, lines 86-160): one LLM call; on success the
content is post-processed into suggestions/critique/confidence (plus the
competitor-analysis and alternative-ideas fields for the two designated
types); on a raised exception a degraded result with zero confidence and the
error message as content is returned instead of propagating. -/
def execute_standard_agent (g : LLMOracle) (t : AgentTemplate) (ctx : ExecContext)
    (full_prompt : String) : AgentExecutionResult × List CallRecord :=
  match g full_prompt with
  | .ok content =>
      ({ template_id := t.id
         agent_name := t.name
         content := content
         suggestions := extract_suggestions content
         critique := extract_critique content t.type
         confidence_level := calculate_confidence content
         competitor_analysis :=
           if t.type = .COMPANY_COMPETITOR then some (extract_competitor_analysis content)
           else none
         alternative_ideas :=
           if t.type = .COACH then extract_alternative_ideas content else [] },
       [⟨t.id, ctx, full_prompt⟩])
  | .error e =>
      ({ template_id := t.id
         agent_name := t.name
         content := "Error executing agent: " ++ e
         confidence_level := 0 },
       [⟨t.id, ctx, full_prompt⟩])

/-- Base prompt of the rerun agent (`template_agent_executor.py`,
lines 173-179). -/
def rerunBasePrompt (t : AgentTemplate) (ctx : ExecContext) (user_input : String) : String :=
  t.prompt ++ "\n\nCONTEXT:\n" ++ contextStr ctx ++ "\n\nUSER REQUEST:\n" ++ user_input

/-- Variation prompt number `i` (0-based) of the rerun agent
(`template_agent_executor.py`, lines 184-186). -/
def variationPrompt (base : String) (i : Nat) : String :=
  base ++ "\n\nThis is variation #" ++ toString (i + 1)
    ++ ". Provide a unique perspective focusing on different aspects or approaches than the other variations."

/-- Embedding of `TemplateAgentExecutor._get_single_response`
(`template_agent_executor.py`, lines 273-286): a raised exception is captured
into an error string, so this function never raises. -/
def get_single_response (g : LLMOracle) (prompt : String) : String :=
  match g prompt with
  | .ok c => c
  | .error e => "Error getting response: " ++ e

/-- Embedding of `TemplateAgentExecutor._execute_rerun_agent`
(`template_agent_executor.py`, lines 162-216): 5 variation calls (issued
concurrently in the source; each call's outcome is independent of the others),
collected into `rerun_results` with an `Analysis #i:` header each.  Because
`_get_single_response` captures every exception, the `except` branch of the
source is unreachable and the result always carries 5 entries. -/
def execute_rerun_agent (g : LLMOracle) (t : AgentTemplate) (ctx : ExecContext)
    (user_input : String) : AgentExecutionResult × List CallRecord :=
  let base := rerunBasePrompt t ctx user_input
  let rerun_results := (List.range 5).map (fun i =>
    "Analysis #" ++ toString (i + 1) ++ ":\n" ++ get_single_response g (variationPrompt base i))
  ({ template_id := t.id
     agent_name := t.name
     content := "\n\n" ++ String.mk (List.replicate 50 '=')
       ++ String.intercalate "\n\n" rerun_results
     rerun_results := rerun_results
     confidence_level := 9/10 },
   (List.range 5).map (fun i => ⟨t.id, ctx, variationPrompt base i⟩))

/-- Full prompt of the questions agent (`template_agent_executor.py`,
lines 228-236). -/
def questionsPrompt (t : AgentTemplate) (ctx : ExecContext) (user_input : String) : String :=
  t.prompt ++ "\n\nCONTEXT:\n" ++ contextStr ctx ++ "\n\nUSER REQUEST:\n" ++ user_input
    ++ "\n\nGenerate exactly 10 strategic questions that would help better understand and improve this request."

/-- Embedding of `TemplateAgentExecutor._execute_questions_agent`
(`template_agent_executor.py`, lines 218-271). -/
def execute_questions_agent (g : LLMOracle) (t : AgentTemplate) (ctx : ExecContext)
    (user_input : String) : AgentExecutionResult × List CallRecord :=
  match g (questionsPrompt t ctx user_input) with
  | .ok content =>
      ({ template_id := t.id
         agent_name := t.name
         content := content
         questions := extract_questions content
         confidence_level := 85/100 },
       [⟨t.id, ctx, questionsPrompt t ctx user_input⟩])
  | .error e =>
      ({ template_id := t.id
         agent_name := t.name
         content := "Error executing questions agent: " ++ e
         confidence_level := 0 },
       [⟨t.id, ctx, questionsPrompt t ctx user_input⟩])

/-- The template store as seen through `agent_template_service.get_template`:
a dict keyed by `template.id`, i.e. lookup of the first stored template whose
`id` equals the requested id. -/
def lookupTemplate (store : List AgentTemplate) (template_id : String) : Option AgentTemplate :=
  store.find? (fun t => t.id = template_id)

/-- Embedding of `TemplateAgentExecutor.execute_agent_template`
(`template_agent_executor.py`, lines 16-84).  `Except.error` models the
`ValueError` raised for an unknown template id; the second component records
the LLM calls issued. -/
def execute_agent_template (g : LLMOracle) (store : List AgentTemplate)
    (template_id : String) (user_input : String) (ctx : ExecContext) :
    Except String AgentExecutionResult × List CallRecord :=
  match lookupTemplate store template_id with
  | none => (.error ("Template not found: " ++ template_id), [])
  | some t =>
      match t.type with
      | .RERUN =>
          let r := execute_rerun_agent g t ctx user_input
          (.ok r.1, r.2)
      | .QUESTIONS =>
          let r := execute_questions_agent g t ctx user_input
          (.ok r.1, r.2)
      | _ =>
          let r := execute_standard_agent g t ctx (standardFullPrompt t ctx user_input)
          (.ok r.1, r.2)

/-- The `depends_on` list of the stored template with id `tid`, as
`execute_multiple_templates` reads it (`getattr(template, 'depends_on', []) or
[]`, `template_agent_executor.py` lines 382 and 420). -/
def depsListOf (store : List AgentTemplate) (tid : String) : List String :=
  match lookupTemplate store tid with
  | some t => t.depends_on
  | none => []

/-- The adjacency sets of the dependency graph (`template_agent_executor.py`,
lines 377-386), read as `sorted(list(graph[u]))` (line 396): the requested
templates whose restricted `depends_on` contains `u`, deduplicated and sorted.
`keys` are the requested ids (dict-deduplicated); only their membership
matters here. -/
def succsOf (store : List AgentTemplate) (keys : List String) (u : String) : List String :=
  List.mergeSort ((keys.filter (fun v => decide (u ∈ depsListOf store v))).dedup)
    (fun a b => charListLe a.toList b.toList)

/-- Initial in-degree of `tid` (`template_agent_executor.py`, lines 378-386):
the number of entries of its `depends_on` list that are themselves requested
(counted with multiplicity, exactly as the `in_degree[tid] += 1` loop does).
Python ints are modelled as `Int`. -/
def initialDeg (store : List AgentTemplate) (keys : List String) (tid : String) : Int :=
  ((depsListOf store tid).filter (fun d => decide (d ∈ keys))).length

/-- One pass of decrement events over the in-degree table
(`template_agent_executor.py`, lines 395-399): for each event vertex `v` in
order, decrement `in_degree[v]` and append `v` to the next queue when the
decremented value is exactly 0. -/
def runEvents : List String → (String → Int) → (String → Int) × List String
  | [], deg => (deg, [])
  | v :: es, deg =>
      let d := deg v - 1
      let rest := runEvents es (fun x => if x = v then d else deg x)
      (rest.1, if d = 0 then v :: rest.2 else rest.2)

/-- The `while queue:` loop of the topological sort
(`template_agent_executor.py`, lines 392-400), with explicit fuel (the source
loop terminates because every queue element is consumed exactly once; fuel
`n + 1` is always sufficient, see `kahnStages` facts below).  The decrement
events of one stage are `queue.flatMap succs`: the nested
`for u in queue: for v in sorted(list(graph[u]))` iteration. -/
def kahnStages (succs : String → List String) :
    Nat → List String → (String → Int) → List (List String)
  | 0, _, _ => []
  | fuel + 1, queue, deg =>
      if queue.isEmpty then []
      else
        let step := runEvents (queue.flatMap succs) deg
        queue :: kahnStages succs fuel step.2 step.1

/-- Dependency results gathered for one template before its execution
(`template_agent_executor.py`, lines 418-423): for each declared dependency,
in order, the already-executed result if there is one. -/
def dependencyOutputs (store : List AgentTemplate)
    (executed : String → Option AgentExecutionResult) (tid : String) :
    List AgentExecutionResult :=
  (depsListOf store tid).filterMap executed

/-- The per-execution context (`template_agent_executor.py`, lines 414-426):
a copy of the caller's context, with `dependency_results` overwritten only
when at least one dependency output was gathered. -/
def stageCtx (base : ExecContext) (depOut : List AgentExecutionResult) : ExecContext :=
  if depOut.isEmpty then base else { base with dependency_results := depOut }

/-- Execution of the tasks of one stage (`template_agent_executor.py`, lines
409-432).  The source gathers them concurrently; every task is created with
the same `executed_results` snapshot, so the fan-out is equivalent to this
sequential fold.  An `Except.error` models an exception propagating out of a
task (impossible once the ids were validated, see the theorems below). -/
def execStage (g : LLMOracle) (store : List AgentTemplate) (user_input : String)
    (base : ExecContext) (executed : String → Option AgentExecutionResult) :
    List String → Except String (List AgentExecutionResult × List CallRecord)
  | [] => .ok ([], [])
  | tid :: rest =>
      let ectx := stageCtx base (dependencyOutputs store executed tid)
      match execute_agent_template g store tid user_input ectx with
      | (.error e, _) => .error e
      | (.ok r, log) =>
          match execStage g store user_input base executed rest with
          | .error e => .error e
          | .ok (rs, logs) => .ok (r :: rs, log ++ logs)

/-- Storing a stage's results (`template_agent_executor.py`, lines 434-436):
`executed_results[result.template_id] = result` for each result in order. -/
def updateExecuted (executed : String → Option AgentExecutionResult)
    (rs : List AgentExecutionResult) : String → Option AgentExecutionResult :=
  rs.foldl (fun m r => fun k => if k = r.template_id then some r else m k) executed

/-- The stage-by-stage execution loop followed by the final reordering
(`template_agent_executor.py`, lines 406-439).  The final list is
`[executed_results[tid] for tid in template_ids if tid in executed_results]`,
i.e. `template_ids.filterMap executed`. -/
def runStagesGo (g : LLMOracle) (store : List AgentTemplate) (user_input : String)
    (base : ExecContext) (template_ids : List String) :
    List (List String) → (String → Option AgentExecutionResult) → List CallRecord →
      Except String (List AgentExecutionResult) × List CallRecord
  | [], executed, log => (.ok (template_ids.filterMap executed), log)
  | stage :: rest, executed, log =>
      match execStage g store user_input base executed stage with
      | .error e => (.error e, log)
      | .ok (rs, slog) =>
          runStagesGo g store user_input base template_ids rest
            (updateExecuted executed rs) (log ++ slog)

/-- Message of the cycle error (`template_agent_executor.py`, line 404). -/
def circularDependencyMsg : String :=
  "A circular dependency was detected among the selected agents."

/-- Embedding of `TemplateAgentExecutor.execute_multiple_templates`
(`template_agent_executor.py`, lines 359-439): validate all requested ids
(first missing id raises, dict iteration order is first-occurrence order),
build the restricted dependency graph, topologically sort it into stages by
in-degree counting, detect cycles by coverage counting, then execute the
stages and return the results reordered to the caller's requested order.
Both structural errors are raised before any stage executes, hence the empty
call log on those paths. -/
def execute_multiple_templates (g : LLMOracle) (store : List AgentTemplate)
    (template_ids : List String) (user_input : String) (ctx : ExecContext) :
    Except String (List AgentExecutionResult) × List CallRecord :=
  match template_ids.find? (fun tid => (lookupTemplate store tid).isNone) with
  | some tid => (.error ("Template not found: " ++ tid), [])
  | none =>
      let keys := template_ids.dedup
      let succs := succsOf store keys
      let deg0 := initialDeg store keys
      let queue0 := template_ids.filter (fun tid => decide (deg0 tid = 0))
      let stages := kahnStages succs (template_ids.length + 1) queue0 deg0
      if (stages.map List.length).sum ≠ template_ids.length then
        (.error circularDependencyMsg, [])
      else
        runStagesGo g store user_input ctx template_ids stages (fun _ => none) []

/-- Embedding of the `AgentType` enum of `backend/app/models/agent_models.py`,
in declaration order (Python iterates an enum in declaration order). -/
inductive AgentType where
  | UI_DESIGNER
  | UX_RESEARCHER
  | DEVELOPER
  | PRODUCT_MANAGER
  | STAKEHOLDER
  | EPIC_GENERATOR
  | STORY_GENERATOR
  | QA_PLANNER
  | REVIEW_AGENT
  | DEVELOPMENT_PLANNER
  | LEGO_BUILDER
deriving DecidableEq, Repr

/-- The `value` string of each `AgentType` member. -/
def AgentType.value : AgentType → String
  | .UI_DESIGNER => "ui_designer"
  | .UX_RESEARCHER => "ux_researcher"
  | .DEVELOPER => "developer"
  | .PRODUCT_MANAGER => "product_manager"
  | .STAKEHOLDER => "stakeholder"
  | .EPIC_GENERATOR => "epic_generator"
  | .STORY_GENERATOR => "story_generator"
  | .QA_PLANNER => "qa_planner"
  | .REVIEW_AGENT => "review_agent"
  | .DEVELOPMENT_PLANNER => "development_planner"
  | .LEGO_BUILDER => "lego_builder"

/-- Python `list(AgentType)`: the members in declaration order. -/
def allAgentTypes : List AgentType :=
  [.UI_DESIGNER, .UX_RESEARCHER, .DEVELOPER, .PRODUCT_MANAGER, .STAKEHOLDER,
   .EPIC_GENERATOR, .STORY_GENERATOR, .QA_PLANNER, .REVIEW_AGENT,
   .DEVELOPMENT_PLANNER, .LEGO_BUILDER]

/-- Embedding of the `AgentResponse` pydantic model
(`backend/app/models/agent_models.py`, lines 21-27).  Note that this model has
no `confidence_level` field — which matters for `synthesize_responses`. -/
structure AgentResponse where
  agent_type : AgentType
  content : String
  suggestions : List String := []
  critique : Option String := none
deriving DecidableEq, Repr

/-- Embedding of the `HandoffDecision` dataclass
(`backend/app/agents/handoff_coordinator.py`, lines 6-14). -/
structure HandoffDecision where
  primary_agent : AgentType
  supporting_agents : List AgentType
  requires_parallel_processing : Bool
  requires_synthesis : Bool
  confidence : ℚ
  reasoning : String
deriving DecidableEq, Repr

/-- Embedding of the `WorkloadAssignment` dataclass
(`backend/app/agents/handoff_coordinator.py`, lines 17-24). -/
structure WorkloadAssignment where
  agent_type : AgentType
  priority : Nat
  focus_areas : List String
  specific_questions : List String
  dependencies : List AgentType
deriving DecidableEq, Repr

/-- Python single-quote character, used by `repr` of strings. -/
def sq : String := String.singleton (Char.ofNat 39)

/-- Python `f"{[s.value for s in supporting]}"`: the repr of a list of
strings. -/
def pyStrListRepr (l : List String) : String :=
  "[" ++ String.intercalate ", " (l.map (fun s => sq ++ s ++ sq)) ++ "]"

/-- Embedding of `HandoffCoordinator.evaluate_handoff_needs`
(`handoff_coordinator.py`, lines 33-76): keyword-bucket classification of the
lowercased input chooses the primary agent (falling back to the current
agent); the supporting list is the first 2 (long input) or first 3
(comprehensive-keyword input) other agent types, else empty. -/
def evaluate_handoff_needs (user_input : String) (current_agent : AgentType)
    (_recent_responses : List AgentResponse) : HandoffDecision :=
  let input_lower := pyLower user_input
  let primary :=
    if ["visual", "design", "color", "layout", "aesthetic"].any
        (fun kw => pyInStr kw input_lower) then AgentType.UI_DESIGNER
    else if ["user", "experience", "usability", "accessibility", "flow"].any
        (fun kw => pyInStr kw input_lower) then AgentType.UX_RESEARCHER
    else if ["technical", "implement", "code", "performance", "architecture"].any
        (fun kw => pyInStr kw input_lower) then AgentType.DEVELOPER
    else if ["business", "requirement", "feature", "product", "strategy"].any
        (fun kw => pyInStr kw input_lower) then AgentType.PRODUCT_MANAGER
    else current_agent
  let supporting :=
    if 20 < (pySplitWhitespace input_lower).length then
      (allAgentTypes.filter (fun a => a ≠ primary)).take 2
    else if ["comprehensive", "complete", "full", "detailed"].any
        (fun kw => pyInStr kw input_lower) then
      (allAgentTypes.filter (fun a => a ≠ primary)).take 3
    else []
  { primary_agent := primary
    supporting_agents := supporting
    requires_parallel_processing := !supporting.isEmpty
    requires_synthesis := 1 < supporting.length
    confidence := 8/10
    reasoning := "Primary: " ++ primary.value ++ ", Supporting: "
      ++ pyStrListRepr (supporting.map AgentType.value) }

/-- Embedding of `HandoffCoordinator._get_focus_areas`
(`handoff_coordinator.py`, lines 109-117). -/
def get_focus_areas (agent_type : AgentType) (_user_input : String) : List String :=
  match agent_type with
  | .UI_DESIGNER => ["Visual design", "Layout structure", "Color scheme", "Typography"]
  | .UX_RESEARCHER => ["User experience", "Usability", "Accessibility", "User flows"]
  | .DEVELOPER => ["Technical feasibility", "Implementation approach", "Performance", "Architecture"]
  | .PRODUCT_MANAGER => ["Business requirements", "User needs", "Feature prioritization", "Strategy"]
  | _ => ["General analysis"]

/-- Embedding of `HandoffCoordinator._get_specific_questions`
(`handoff_coordinator.py`, lines 119-143). -/
def get_specific_questions (agent_type : AgentType) (_user_input : String) : List String :=
  match agent_type with
  | .UI_DESIGNER =>
      ["How can the visual hierarchy be improved?",
       "What design patterns would work best here?",
       "Are there any visual accessibility concerns?"]
  | .UX_RESEARCHER =>
      ["How does this align with user needs?",
       "What usability issues might arise?",
       "How can the user flow be optimized?"]
  | .DEVELOPER =>
      ["What are the technical implementation challenges?",
       "How can performance be optimized?",
       "What architecture decisions are needed?"]
  | .PRODUCT_MANAGER =>
      ["How does this align with business goals?",
       "What's the priority of different features?",
       "What are the success metrics?"]
  | _ => ["How can this be improved?"]

/-- Embedding of `HandoffCoordinator.create_workload_assignments`
(`handoff_coordinator.py`, lines 78-107): the primary agent gets priority 1
and no dependencies; supporting agent number `i` (0-based) gets priority
`i + 2` and depends on the primary exactly when
`requires_parallel_processing` is false. -/
def create_workload_assignments (decision : HandoffDecision) (user_input : String) :
    List WorkloadAssignment :=
  { agent_type := decision.primary_agent
    priority := 1
    focus_areas := get_focus_areas decision.primary_agent user_input
    specific_questions := get_specific_questions decision.primary_agent user_input
    dependencies := [] }
  :: decision.supporting_agents.enum.map (fun p =>
      { agent_type := p.2
        priority := p.1 + 2
        focus_areas := get_focus_areas p.2 user_input
        specific_questions := get_specific_questions p.2 user_input
        dependencies :=
          if !decision.requires_parallel_processing then [decision.primary_agent] else [] })

/-- The result dict of `HandoffCoordinator.synthesize_responses`
(`handoff_coordinator.py`, lines 189-195). -/
structure SynthesisSummary where
  coordination_summary : String
  common_themes : List String
  conflicting_recommendations : List String
  next_steps : List String
  overall_confidence : ℚ
deriving DecidableEq, Repr

/-- Deduplication keeping the first occurrence of each element — the key
order of a Python dict filled by repeated `d[k] = d.get(k, 0) + 1`. -/
def firstOccurDedup : List String → List String
  | [] => []
  | w :: ws => w :: (firstOccurDedup ws).filter (fun x => x ≠ w)

/-- The words tallied by `synthesize_responses` (`handoff_coordinator.py`,
lines 203-208): all words of all suggestions of all responses, lowercased,
longer than 4 characters, in iteration order. -/
def suggestionWords (agent_responses : List AgentResponse) : List String :=
  ((agent_responses.flatMap (fun r => r.suggestions)).flatMap
    (fun s => pySplitWhitespace (pyLower s))).filter (fun w => 4 < w.length)

/-- Embedding of `HandoffCoordinator.synthesize_responses`
(`handoff_coordinator.py`, lines 183-226).  `common_themes` are the first 5
tallied words whose total occurrence count (across every suggestion of every
response) exceeds 1, in dict insertion order.  `AgentResponse` has no
`confidence_level` field, so `getattr(response, 'confidence_level', 0.8)`
always yields the default `0.8`; the average is taken over that constant. -/
def synthesize_responses (agent_responses : List AgentResponse) (_user_input : String) :
    SynthesisSummary :=
  let ws := suggestionWords agent_responses
  let common_themes := ((firstOccurDedup ws).filter (fun w => 1 < ws.count w)).take 5
  { coordination_summary :=
      "Processed by " ++ toString agent_responses.length ++ " agents"
    common_themes := common_themes
    conflicting_recommendations := []
    next_steps :=
      ["Review agent recommendations",
       "Implement high-priority suggestions",
       "Consider agent coordination feedback"]
    overall_confidence :=
      if agent_responses.isEmpty then 0
      else (agent_responses.map (fun _ => (8 : ℚ)/10)).sum / agent_responses.length }

/-- The `status` values of a pipeline job
(`backend/app/services/epic_stories_pipeline.py`). -/
inductive PipelineStatus where
  | starting
  | generating_epics
  | generating_stories
  | merging
  | completed
  | failed
deriving DecidableEq, Repr

/-- Position of a status in the forward order of the pipeline state machine;
`failed` is the absorbing last position. -/
def statusIdx : PipelineStatus → Nat
  | .starting => 0
  | .generating_epics => 1
  | .generating_stories => 2
  | .merging => 3
  | .completed => 4
  | .failed => 5

/-- The per-phase `progress` values of a pipeline job. -/
inductive ProgressPhase where
  | pending
  | running
  | completed
deriving DecidableEq, Repr

/-- Embedding of one entry of `EpicStoriesPipeline.active_pipelines`
(`epic_stories_pipeline.py`, lines 38-53): the mutable job dict.  File paths
are modelled relative to the output directory (the directory prefix is
ambient state shared by all paths and irrelevant to every property). -/
structure PipelineJob where
  status : PipelineStatus
  epics_file : Option String := none
  stories_files : List String := []
  final_file : Option String := none
  error : Option String := none
  progress_epics : ProgressPhase := .pending
  progress_stories : ProgressPhase := .pending
  progress_merge : ProgressPhase := .pending
deriving DecidableEq, Repr

/-- One parsed epic (`epic_stories_pipeline.py`, lines 174-178): a title/content
dict. -/
structure EpicDict where
  title : String
  content : String
deriving DecidableEq, Repr

/-- Python truthiness of `current_epic` (`None` or a string). -/
def pyTruthyStr : Option String → Bool
  | none => false
  | some s => s ≠ ""

/-- The title cleanup of an epic header line (`epic_stories_pipeline.py`,
line 181). -/
def cleanEpicTitle (line : String) : String :=
  pyStrip (pyReplace (pyReplace (pyReplace line "**" "") "EPIC" "") ":" "")

/-- The scanning loop of `EpicStoriesPipeline._extract_epics_from_result`
(`epic_stories_pipeline.py`, lines 170-192), threading the current epic title
and the accumulated content lines. -/
def extractEpicsGo : List String → Option String → List String → List EpicDict
  | [], cur, acc =>
      if pyTruthyStr cur then [⟨cur.getD "", pyStrip (String.intercalate "\n" acc)⟩] else []
  | l :: ls, cur, acc =>
      let line := pyStrip l
      if pyStartsWith line "**EPIC" || pyStartsWith line "EPIC" then
        (if pyTruthyStr cur then [⟨cur.getD "", pyStrip (String.intercalate "\n" acc)⟩] else [])
          ++ extractEpicsGo ls (some (cleanEpicTitle line)) []
      else
        extractEpicsGo ls cur (if pyTruthyStr cur && line ≠ "" then acc ++ [line] else acc)

/-- Embedding of `EpicStoriesPipeline._extract_epics_from_result`
(`epic_stories_pipeline.py`, lines 160-195): split the epic generator's text
into title/content dicts at `EPIC` header lines. -/
def extract_epics_from_result (content : String) : List EpicDict :=
  extractEpicsGo (pySplitLines content) none []

/-- Environment of one `_run_pipeline` execution: the outcome of each
suspension point (LLM fan-outs and file writes).  `epicsResult = none` models
`_generate_epics` catching an exception and returning `None`; `storyOk n`
tells whether the story task for epic `n` produced a file (its own exceptions
are caught and turn into `None`, `epic_stories_pipeline.py` lines 248-250);
the `Option String` fields hold the message of an exception raised by the
corresponding step, `none` meaning success. -/
structure PipelineEnv where
  epicsResult : Option AgentExecutionResult
  saveEpicsError : Option String := none
  storyOk : Nat → Bool := fun _ => true
  mergeError : Option String := none

/-- The `except` handler of `_run_pipeline` (`epic_stories_pipeline.py`,
lines 128-131): mark the job failed and store the message. -/
def pipelineFail (j : PipelineJob) (e : String) : PipelineJob :=
  { j with status := .failed, error := some e }

/-- Embedding of `EpicStoriesPipeline._run_pipeline`
(`epic_stories_pipeline.py`, lines 60-131), given the outcome environment.
Returns the final job record together with the chronological list of values
assigned to `pipeline["status"]` (the initial `starting` is set by
`start_pipeline`, line 39).  The story fan-out runs concurrently in the
source, but no status/progress assignment happens between its start and the
`gather` barrier, so completion order is unobservable here. -/
def run_pipeline (env : PipelineEnv) (pipeline_id : String) :
    PipelineJob × List PipelineStatus :=
  let j1 : PipelineJob := { status := .generating_epics, progress_epics := .running }
  match env.epicsResult with
  | none =>
      (pipelineFail j1 "Failed to generate epics",
       [.starting, .generating_epics, .failed])
  | some er =>
      match env.saveEpicsError with
      | some e =>
          (pipelineFail j1 e, [.starting, .generating_epics, .failed])
      | none =>
          let j2 := { j1 with epics_file := some (pipeline_id ++ "_epics.json"),
                              progress_epics := .completed }
          if (extract_epics_from_result er.content).isEmpty then
            (pipelineFail j2 "No epics found in result",
             [.starting, .generating_epics, .failed])
          else
            let j3 := { j2 with status := .generating_stories,
                                progress_stories := .running }
            let story_files := ((List.range (extract_epics_from_result er.content).length).map (fun i =>
              if env.storyOk (i + 1) then
                some (pipeline_id ++ "_stories_epic_" ++ toString (i + 1) ++ ".json")
              else none)).filterMap id
            let j4 := { j3 with stories_files := story_files,
                                progress_stories := .completed }
            let j5 := { j4 with status := .merging, progress_merge := .running }
            match env.mergeError with
            | some e =>
                (pipelineFail j5 e,
                 [.starting, .generating_epics, .generating_stories, .merging, .failed])
            | none =>
                ({ j5 with final_file := some (pipeline_id ++ "_development_plan.md"),
                           progress_merge := .completed,
                           status := .completed },
                 [.starting, .generating_epics, .generating_stories, .merging, .completed])

/-! ### Auxiliary notions for the statements and proofs -/

/-- The distinct dependencies of `v` that lie in the requested key set: the
(sets of) predecessors of `v` in the restricted dependency graph. -/
def predsIn (store : List AgentTemplate) (keys : List String) (v : String) : List String :=
  ((depsListOf store v).filter (fun d => decide (d ∈ keys))).dedup

/-- Edge `u → v` of the dependency graph restricted to `ids`: both endpoints
requested and `v`'s template declares a dependency on `u`. -/
def edgeIn (store : List AgentTemplate) (ids : List String) (u v : String) : Prop :=
  v ∈ ids ∧ u ∈ predsIn store ids v

/-- A cycle among the requested templates: some vertex reaches itself through
a nonempty chain of restricted dependency edges. -/
def HasRestrictedCycle (store : List AgentTemplate) (ids : List String) : Prop :=
  ∃ v, Relation.TransGen (edgeIn store ids) v v

/-- The requested templates form a DAG: the restricted dependency relation
admits a topological ranking (for finite graphs this is acyclicity). -/
def RankedDag (store : List AgentTemplate) (ids : List String) : Prop :=
  ∃ rank : String → Nat,
    ∀ v ∈ ids, ∀ u ∈ depsListOf store v, u ∈ ids → rank u < rank v

/-- Loop invariant of the staged Kahn sort, between stages: `U` is the
concatenation of the emitted stages, `Q` the current queue, `deg` the current
in-degree table. -/
structure KahnInv (store : List AgentTemplate) (keys U Q : List String)
    (deg : String → Int) : Prop where
  nodup : (U ++ Q).Nodup
  sub : ∀ v ∈ U ++ Q, v ∈ keys
  predsU : ∀ v ∈ U, ∀ u ∈ predsIn store keys v, u ∈ U
  predsQ : ∀ v ∈ Q, ∀ u ∈ predsIn store keys v, u ∈ U
  multEq : ∀ v ∈ U ++ Q, initialDeg store keys v = ((predsIn store keys v).length : Int)
  degEq : ∀ v ∈ keys, deg v = initialDeg store keys v
    - (((predsIn store keys v).filter (fun u => decide (u ∈ U))).length : Int)

/-- Completeness side of the invariant: every requested vertex whose
predecessors are all processed has been scheduled. -/
def KahnReady (store : List AgentTemplate) (keys U Q : List String) : Prop :=
  ∀ v ∈ keys, (∀ u ∈ predsIn store keys v, u ∈ U) → v ∈ U ∨ v ∈ Q

/-- In the call log, every call of template `B` precedes every call of
template `A`, and both occur: the log splits into a part holding `B`'s calls
(and no `A` call) followed by a part holding `A`'s calls (and no `B` call). -/
def logSplitAfter (log : List CallRecord) (B A : String) : Prop :=
  ∃ l₁ l₂, log = l₁ ++ l₂
    ∧ (∃ rec ∈ l₁, rec.template_id = B)
    ∧ (∃ rec ∈ l₂, rec.template_id = A)
    ∧ (∀ rec ∈ l₁, rec.template_id ≠ A)
    ∧ (∀ rec ∈ l₂, rec.template_id ≠ B)

/-- The step function of the confidence heuristic as a function of the word
count alone (the spec's description of `_calculate_confidence`). -/
def confOfWordCount (wc : Nat) : ℚ :=
  if 300 < wc then 9/10
  else if 200 < wc then 8/10
  else if 100 < wc then 7/10
  else 6/10

/-! ### Concrete material for witnesses and counterexamples -/

/-- Witness template `a`: a plain standard agent. -/
def wtA : AgentTemplate :=
  { id := "a", name := "Agent A", type := .DEVELOPER, prompt := "pa" }

/-- Witness template `b`, depending on `a`. -/
def wtB : AgentTemplate :=
  { id := "b", name := "Agent B", type := .UX_RESEARCHER, prompt := "pb", depends_on := ["a"] }

/-- Witness template with a self-dependency (a one-edge cycle). -/
def wtLoop : AgentTemplate :=
  { id := "s", name := "Agent S", type := .DEVELOPER, prompt := "ps", depends_on := ["s"] }

/-- Witness rerun-type template. -/
def wtR : AgentTemplate :=
  { id := "r", name := "Agent R", type := .RERUN, prompt := "pr" }

/-- Witness store holding the witness templates. -/
def wStore : List AgentTemplate := [wtA, wtB, wtLoop, wtR]

/-- Oracle that always succeeds. -/
def gOk : LLMOracle := fun _ => .ok "fine"

/-- Oracle that always raises. -/
def gBoom : LLMOracle := fun _ => .error "boom"

/-- Ranking of the witness templates (for the DAG hypothesis). -/
def wRank : String → Nat := fun s => if s = "a" then 0 else 1

/-- Response used to refute the per-result reading of `common_themes`: one
single result whose one suggestion repeats the word `should`. -/
def respDup : AgentResponse :=
  { agent_type := .UI_DESIGNER, content := "c", suggestions := ["should should do it"] }

/-- Happy-path pipeline environment: the epic generator returns text with one
parseable `EPIC` header and every later step succeeds. -/
def envHappy : PipelineEnv :=
  { epicsResult := some
      { template_id := "epics_generator_default", agent_name := "E",
        content := "EPIC 1: Alpha\nbody line" } }

/-- Pipeline environment whose merge step raises. -/
def envMergeFail : PipelineEnv :=
  { envHappy with mergeError := some "disk full" }

/-- Pipeline environment whose epic generation fails. -/
def envEpicsFail : PipelineEnv := { epicsResult := none }

/-- Pipeline environment in which every per-epic story task raises: the
exception is caught inside `_generate_stories_for_epic`
(`epic_stories_pipeline.py`, lines 248-250) and becomes `None`, so no story
file is produced. -/
def envStoriesFail : PipelineEnv :=
  { envHappy with storyOk := fun _ => false }

/-! ### C9: the confidence heuristic -/

/-- C9: the confidence heuristic is a function of the response word count
only; it equals 0.9 above 300 words, 0.8 on (200, 300], 0.7 on (100, 200] and
0.6 at or below 100 words, and it is monotone non-decreasing in the word
count (hence also across the boundary values 100, 200 and 300). -/
theorem calculate_confidence_band_monotone :
    (∀ content, calculate_confidence content
      = confOfWordCount (pySplitWhitespace content).length)
    ∧ (∀ wc : Nat,
        (300 < wc → confOfWordCount wc = 9/10)
        ∧ (200 < wc ∧ wc ≤ 300 → confOfWordCount wc = 8/10)
        ∧ (100 < wc ∧ wc ≤ 200 → confOfWordCount wc = 7/10)
        ∧ (wc ≤ 100 → confOfWordCount wc = 6/10))
    ∧ Monotone confOfWordCount := by
  refine ⟨fun content => rfl, fun wc => ?_, ?_⟩
  · refine ⟨fun h => ?_, fun h => ?_, fun h => ?_, fun h => ?_⟩ <;>
      · simp only [confOfWordCount]
        split_ifs <;> first | rfl | omega
  · intro a b hab
    simp only [confOfWordCount]
    split_ifs <;> try norm_num
    all_goals omega

/-- Witness for C9, applying the theorem at the band boundaries. -/
theorem calculate_confidence_band_monotone_witness :
    confOfWordCount 301 = 9/10 ∧ confOfWordCount 300 = 8/10
    ∧ confOfWordCount 201 = 8/10 ∧ confOfWordCount 200 = 7/10
    ∧ confOfWordCount 101 = 7/10 ∧ confOfWordCount 100 = 6/10 :=
  ⟨(calculate_confidence_band_monotone.2.1 301).1 (by norm_num),
   (calculate_confidence_band_monotone.2.1 300).2.1 ⟨by norm_num, le_refl _⟩,
   (calculate_confidence_band_monotone.2.1 201).2.1 ⟨by norm_num, by norm_num⟩,
   (calculate_confidence_band_monotone.2.1 200).2.2.1 ⟨by norm_num, le_refl _⟩,
   (calculate_confidence_band_monotone.2.1 101).2.2.1 ⟨by norm_num, by norm_num⟩,
   (calculate_confidence_band_monotone.2.1 100).2.2.2 (le_refl _)⟩

/-- Appending strings appends their character lists (definitional). -/
theorem string_toList_append (s t : String) : (s ++ t).toList = s.toList ++ t.toList := rfl

/-! ### C7: question extraction -/

/-- C7: for every input text, `_extract_questions` returns at most 10
strings, and every returned string contains a question mark (each kept line is
truncated at its first question mark, which is re-attached). -/
theorem extract_questions_capped_and_marked (content : String) :
    (extract_questions content).length ≤ 10
    ∧ ∀ q ∈ extract_questions content, (Char.ofNat 63) ∈ q.toList := by
  constructor
  · exact List.length_take_le _ _
  · intro q hq
    have hq2 := List.mem_of_mem_take hq
    rcases List.mem_map.1 hq2 with ⟨line, _hline, rfl⟩
    have h63 : (Char.ofNat 63) ∈ ("?" : String).toList := by decide
    rw [string_toList_append]
    exact List.mem_append_right _ h63

/-! ### C8: rerun execution -/

/-- C8: executing a rerun-type template yields a result whose `rerun_results`
has exactly 5 entries, each a non-empty string, whatever the outcomes
(success or failure, identical or distinct) of the 5 underlying variation
calls. -/
theorem execute_rerun_five_nonempty (g : LLMOracle) (store : List AgentTemplate)
    (tid ui : String) (ctx : ExecContext) (t : AgentTemplate)
    (ht : lookupTemplate store tid = some t) (hty : t.type = .RERUN) :
    ∃ r log, execute_agent_template g store tid ui ctx = (.ok r, log)
      ∧ r.rerun_results.length = 5
      ∧ ∀ s ∈ r.rerun_results, s ≠ "" := by
  simp only [execute_agent_template, ht, hty]
  refine ⟨_, _, rfl, ?_, ?_⟩
  · simp [execute_rerun_agent]
  · intro s hs
    simp only [execute_rerun_agent, List.mem_map, List.mem_range] at hs
    rcases hs with ⟨i, _, rfl⟩
    intro h
    have := congrArg String.length h
    simp [String.length_append] at this
    exact absurd this.1.1.1 (by decide)

/-- Witness for C8: the rerun template of the witness store, under the
always-failing oracle. -/
theorem execute_rerun_five_nonempty_witness :
    ∃ r log, execute_agent_template gBoom wStore "r" "u" {} = (.ok r, log)
      ∧ r.rerun_results.length = 5
      ∧ ∀ s ∈ r.rerun_results, s ≠ "" :=
  execute_rerun_five_nonempty gBoom wStore "r" "u" {} wtR rfl rfl

/-! ### C4: degraded result on provider failure -/

/-- C4: when the LLM call of a standard-agent execution raises, the executor
returns (instead of raising) a well-formed degraded result: same template id
and agent name, `confidence_level` 0, and the error message as content; the
call itself is the only one issued. -/
theorem execute_standard_degraded (g : LLMOracle) (store : List AgentTemplate)
    (tid ui : String) (ctx : ExecContext) (t : AgentTemplate) (e : String)
    (ht : lookupTemplate store tid = some t)
    (h1 : t.type ≠ .RERUN) (h2 : t.type ≠ .QUESTIONS)
    (hg : g (standardFullPrompt t ctx ui) = .error e) :
    execute_agent_template g store tid ui ctx =
      (.ok { template_id := t.id, agent_name := t.name,
             content := "Error executing agent: " ++ e,
             confidence_level := 0 },
       [⟨t.id, ctx, standardFullPrompt t ctx ui⟩]) := by
  unfold execute_agent_template
  rw [ht]
  cases hty : t.type <;>
    simp_all [execute_standard_agent]

/-- Witness for C4: template `a` of the witness store under the failing
oracle. -/
theorem execute_standard_degraded_witness :
    execute_agent_template gBoom wStore "a" "u" {} =
      (.ok { template_id := "a", agent_name := "Agent A",
             content := "Error executing agent: " ++ "boom",
             confidence_level := 0 },
       [⟨"a", {}, standardFullPrompt wtA {} "u"⟩]) :=
  execute_standard_degraded gBoom wStore "a" "u" {} wtA "boom" rfl
    (by decide) (by decide) rfl

/-! ### C10: workload assignments never carry dependencies -/

/-- Helper: the first supporting assignment produced for the witness
decision. -/
def wSupportAssign : WorkloadAssignment :=
  { agent_type := .UI_DESIGNER
    priority := 2
    focus_areas := get_focus_areas .UI_DESIGNER "x"
    specific_questions := get_specific_questions .UI_DESIGNER "x"
    dependencies := [] }

/-- C10: every workload assignment built from a decision produced by
`evaluate_handoff_needs` has an empty dependency list — the primary's by
construction, and every supporting agent's because supporting agents exist
exactly when `requires_parallel_processing` is true, so the sequential branch
of `create_workload_assignments` is unreachable. -/
theorem workload_assignments_no_dependencies
    (user_input : String) (current : AgentType) (recent : List AgentResponse)
    (ui2 : String) (a : WorkloadAssignment)
    (ha : a ∈ create_workload_assignments
      (evaluate_handoff_needs user_input current recent) ui2) :
    a.dependencies = [] := by
  set d := evaluate_handoff_needs user_input current recent with hd
  have hpar : d.requires_parallel_processing = !d.supporting_agents.isEmpty := by
    rw [hd]; rfl
  rcases List.mem_cons.1 ha with h | h
  · rw [h]
  · rcases List.mem_map.1 h with ⟨⟨i, x⟩, hmem, rfl⟩
    have hne : d.supporting_agents ≠ [] := by
      intro h0
      rw [h0] at hmem
      simp [List.enum] at hmem
    simp [hpar, List.isEmpty_iff, hne]

/-- Witness for C10: a concrete supporting assignment of a concrete decision
with three supporting agents. -/
theorem workload_assignments_no_dependencies_witness :
    wSupportAssign ∈ create_workload_assignments
      (evaluate_handoff_needs "comprehensive" .DEVELOPER []) "x"
    ∧ wSupportAssign.dependencies = [] :=
  ⟨by decide,
   workload_assignments_no_dependencies "comprehensive" .DEVELOPER [] "x"
     wSupportAssign (by decide)⟩

/-! ### C6: synthesis of responses -/

/-- Helper: `firstOccurDedup` only keeps elements of its input. -/
theorem firstOccurDedup_subset : ∀ l : List String, firstOccurDedup l ⊆ l := by
  intro l
  induction l with
  | nil => intro x hx; simp [firstOccurDedup] at hx
  | cons w ws ih =>
      intro x hx
      rcases List.mem_cons.1 hx with h | h
      · exact h ▸ List.mem_cons_self _ _
      · exact List.mem_cons_of_mem _ (ih (List.mem_of_mem_filter h))

/-- Membership is unchanged by first-occurrence deduplication. -/
theorem mem_firstOccurDedup : ∀ (l : List String) (x : String),
    x ∈ firstOccurDedup l ↔ x ∈ l := by
  intro l
  induction l with
  | nil => intro x; simp [firstOccurDedup]
  | cons w ws ih =>
      intro x
      by_cases hxw : x = w
      · subst hxw; simp [firstOccurDedup]
      · simp [firstOccurDedup, List.mem_filter, hxw, ih]

/-- C6 counterexample: with a single agent response whose one suggestion
repeats the word `should`, `synthesize_responses` reports `should` as a
common theme although it occurs in the suggestions of exactly one result —
refuting the claim that `common_themes` are words appearing in the
suggestions of more than one result. -/
theorem synthesize_responses_single_result_theme :
    (synthesize_responses [respDup] "x").common_themes = ["should"]
    ∧ ([respDup] : List AgentResponse).countP
        (fun r => decide ("should" ∈
          (r.suggestions.flatMap (fun s => pySplitWhitespace (pyLower s))))) = 1 := by
  exact ⟨by decide, by decide⟩

/-- C6 (amended): `common_themes` are exactly the tallied words — longer
than 4 characters, lowercased — whose total number of occurrences across all
suggestions of all results exceeds 1 (a word repeated inside a single
result's suggestions counts), in first-occurrence (dict insertion) order,
capped to the first 5; in particular, when fewer than 5 themes are reported,
every qualifying tallied word is among them.  And since `AgentResponse`
carries no confidence field, `overall_confidence` is the average of the
constant default 0.8 — i.e. 0.8 for any non-empty response list and 0.0 for
the empty one. -/
theorem synthesize_responses_amended (rs : List AgentResponse) (input : String) :
    (∀ w ∈ (synthesize_responses rs input).common_themes,
        4 < w.length ∧ 1 < (suggestionWords rs).count w)
    ∧ (synthesize_responses rs input).common_themes.length ≤ 5
    ∧ (synthesize_responses rs input).common_themes
        = ((firstOccurDedup (suggestionWords rs)).filter
            (fun w => 1 < (suggestionWords rs).count w)).take 5
    ∧ (∀ w ∈ suggestionWords rs, 1 < (suggestionWords rs).count w →
        (synthesize_responses rs input).common_themes.length < 5 →
        w ∈ (synthesize_responses rs input).common_themes)
    ∧ (synthesize_responses rs input).overall_confidence
        = if rs.isEmpty then 0 else 8/10 := by
  refine ⟨?_, List.length_take_le _ _, rfl, ?_, ?_⟩
  · intro w hw
    simp only [synthesize_responses] at hw
    have hw2 := List.mem_of_mem_take hw
    have hw3 := List.of_mem_filter hw2
    have hw4 : w ∈ firstOccurDedup (suggestionWords rs) := List.mem_of_mem_filter hw2
    have hw5 : w ∈ suggestionWords rs := firstOccurDedup_subset _ hw4
    refine ⟨?_, by simpa using hw3⟩
    simp only [suggestionWords] at hw5
    have h4 := List.of_mem_filter hw5
    simpa using h4
  · intro w hw hcnt hlen
    have hmem : w ∈ (firstOccurDedup (suggestionWords rs)).filter
        (fun w => 1 < (suggestionWords rs).count w) :=
      List.mem_filter.2 ⟨(mem_firstOccurDedup _ w).2 hw, by simpa using hcnt⟩
    have hchar : (synthesize_responses rs input).common_themes
        = ((firstOccurDedup (suggestionWords rs)).filter
            (fun w => 1 < (suggestionWords rs).count w)).take 5 := rfl
    rw [hchar] at hlen ⊢
    have hL : ((firstOccurDedup (suggestionWords rs)).filter
        (fun w => 1 < (suggestionWords rs).count w)).length < 5 := by
      rw [List.length_take] at hlen
      omega
    rw [List.take_of_length_le (by omega)]
    exact hmem
  · cases rs with
    | nil => rfl
    | cons r rs' =>
        have hlen : (((r :: rs').length : ℚ)) ≠ 0 := by
          have h0 : 0 < (r :: rs').length := Nat.succ_pos _
          exact_mod_cast h0.ne'
        have hone : ((r :: rs').map fun _ => (8 : ℚ)/10).sum
            = ((r :: rs').length : ℚ) * (8/10) := by
          rw [List.map_const', List.sum_replicate, nsmul_eq_mul]
        calc (synthesize_responses (r :: rs') input).overall_confidence
            = ((r :: rs').map fun _ => (8 : ℚ)/10).sum / ((r :: rs').length : ℚ) := by
              simp [synthesize_responses]
          _ = (((r :: rs').length : ℚ) * (8/10)) / ((r :: rs').length : ℚ) := by rw [hone]
          _ = 8/10 := by rw [mul_comm, mul_div_assoc, div_self hlen, mul_one]
          _ = if (r :: rs').isEmpty then 0 else 8/10 := by simp

/-- Witness for C6's amended claim: the single-response input of the
counterexample, also exercising completeness — `should` qualifies, the cap
does not bind, so `should` is reported. -/
theorem synthesize_responses_amended_witness :
    (4 < ("should" : String).length ∧ 1 < (suggestionWords [respDup]).count "should")
    ∧ (synthesize_responses [respDup] "x").common_themes.length ≤ 5
    ∧ "should" ∈ (synthesize_responses [respDup] "x").common_themes
    ∧ (synthesize_responses [respDup] "x").overall_confidence
        = if ([respDup] : List AgentResponse).isEmpty then 0 else 8/10 :=
  ⟨(synthesize_responses_amended [respDup] "x").1 "should" (by decide),
   (synthesize_responses_amended [respDup] "x").2.1,
   (synthesize_responses_amended [respDup] "x").2.2.2.1 "should"
     (by decide) (by decide) (by decide),
   (synthesize_responses_amended [respDup] "x").2.2.2.2⟩

/-! ### C5: pipeline status machine -/

/-- The outcome of the per-epic story tasks never influences the final
status, error, final file or status history of a pipeline run: the source
catches every story-task exception inside `_generate_stories_for_epic`
(`epic_stories_pipeline.py`, lines 248-250), turns it into `None`, filters
the `None`s out and carries on, so only `stories_files` depends on the story
outcomes. -/
theorem run_pipeline_story_outcomes_irrelevant (er : Option AgentExecutionResult)
    (se : Option String) (so ok : Nat → Bool) (me : Option String) (pid : String) :
    (run_pipeline ⟨er, se, ok, me⟩ pid).1.status
        = (run_pipeline ⟨er, se, so, me⟩ pid).1.status
    ∧ (run_pipeline ⟨er, se, ok, me⟩ pid).1.error
        = (run_pipeline ⟨er, se, so, me⟩ pid).1.error
    ∧ (run_pipeline ⟨er, se, ok, me⟩ pid).1.final_file
        = (run_pipeline ⟨er, se, so, me⟩ pid).1.final_file
    ∧ (run_pipeline ⟨er, se, ok, me⟩ pid).2
        = (run_pipeline ⟨er, se, so, me⟩ pid).2 := by
  cases er with
  | none => exact ⟨rfl, rfl, rfl, rfl⟩
  | some r =>
      cases se with
      | some e => exact ⟨rfl, rfl, rfl, rfl⟩
      | none =>
          cases hE : (extract_epics_from_result r.content).isEmpty with
          | true =>
              refine ⟨?_, ?_, ?_, ?_⟩ <;> (unfold run_pipeline; simp only [hE]) <;> rfl
          | false =>
              cases me with
              | some e =>
                  refine ⟨?_, ?_, ?_, ?_⟩ <;> (unfold run_pipeline; simp only [hE]) <;> rfl
              | none =>
                  refine ⟨?_, ?_, ?_, ?_⟩ <;> (unfold run_pipeline; simp only [hE]) <;> rfl

/-- C5 counterexample: when every per-epic story task raises, the exception
is caught inside the task and becomes `None`, so the pipeline does not fail:
it proceeds to merge with no story files and ends `completed`, with no
error, running through the full happy-path status history — refuting the
claim that an exception occurring during any step drives the job to the
terminal status `failed`. -/
theorem run_pipeline_story_exception_completes :
    (run_pipeline envStoriesFail "p").1.status = .completed
    ∧ (run_pipeline envStoriesFail "p").1.error = none
    ∧ (run_pipeline envStoriesFail "p").1.stories_files = []
    ∧ (run_pipeline envStoriesFail "p").2
        = [.starting, .generating_epics, .generating_stories, .merging, .completed] := by
  exact ⟨by decide, by decide, by decide, by decide⟩

/-- C5 (amended): the status of a pipeline job only moves forward (in the
order starting, generating_epics, generating_stories, merging, completed,
with failed as final position); a run ends either `completed` — in which
case the status history is exactly the happy-path sequence — or `failed`
with a non-empty error message (assuming raised exceptions carry non-empty
messages, as the pipeline's own do); when the failure happens before the
merge step, `final_file` is still unset; an exception in epic generation,
epic saving, epic parsing or merging does drive the job to `failed`; but an
exception inside a per-epic story task is caught and swallowed, so the final
status, error, final file and status history never depend on the story
outcomes. -/
theorem run_pipeline_status_machine_amended (env : PipelineEnv) (pid : String)
    (hsave : ∀ e, env.saveEpicsError = some e → e ≠ "")
    (hmerge : ∀ e, env.mergeError = some e → e ≠ "") :
    List.Chain' (fun a b => statusIdx a < statusIdx b) (run_pipeline env pid).2
    ∧ ((run_pipeline env pid).1.status = .completed →
        (run_pipeline env pid).2
          = [.starting, .generating_epics, .generating_stories, .merging, .completed])
    ∧ ((run_pipeline env pid).1.status = .completed
        ∨ ((run_pipeline env pid).1.status = .failed
            ∧ ∃ e, (run_pipeline env pid).1.error = some e ∧ e ≠ ""))
    ∧ ((run_pipeline env pid).1.status = .failed →
        PipelineStatus.merging ∉ (run_pipeline env pid).2 →
        (run_pipeline env pid).1.final_file = none)
    ∧ ((env.epicsResult = none
        ∨ env.saveEpicsError ≠ none
        ∨ (∃ er, env.epicsResult = some er
            ∧ (extract_epics_from_result er.content).isEmpty = true)
        ∨ env.mergeError ≠ none) →
        (run_pipeline env pid).1.status = .failed)
    ∧ (∀ ok : Nat → Bool,
        (run_pipeline { env with storyOk := ok } pid).1.status
            = (run_pipeline env pid).1.status
        ∧ (run_pipeline { env with storyOk := ok } pid).1.error
            = (run_pipeline env pid).1.error
        ∧ (run_pipeline { env with storyOk := ok } pid).1.final_file
            = (run_pipeline env pid).1.final_file
        ∧ (run_pipeline { env with storyOk := ok } pid).2
            = (run_pipeline env pid).2) := by
  have hstories : ∀ ok : Nat → Bool,
      (run_pipeline { env with storyOk := ok } pid).1.status
          = (run_pipeline env pid).1.status
      ∧ (run_pipeline { env with storyOk := ok } pid).1.error
          = (run_pipeline env pid).1.error
      ∧ (run_pipeline { env with storyOk := ok } pid).1.final_file
          = (run_pipeline env pid).1.final_file
      ∧ (run_pipeline { env with storyOk := ok } pid).2
          = (run_pipeline env pid).2 := fun ok =>
    run_pipeline_story_outcomes_irrelevant env.epicsResult env.saveEpicsError
      env.storyOk ok env.mergeError pid
  have hmain : List.Chain' (fun a b => statusIdx a < statusIdx b) (run_pipeline env pid).2
      ∧ ((run_pipeline env pid).1.status = .completed →
          (run_pipeline env pid).2
            = [.starting, .generating_epics, .generating_stories, .merging, .completed])
      ∧ ((run_pipeline env pid).1.status = .completed
          ∨ ((run_pipeline env pid).1.status = .failed
              ∧ ∃ e, (run_pipeline env pid).1.error = some e ∧ e ≠ ""))
      ∧ ((run_pipeline env pid).1.status = .failed →
          PipelineStatus.merging ∉ (run_pipeline env pid).2 →
          (run_pipeline env pid).1.final_file = none)
      ∧ ((env.epicsResult = none
          ∨ env.saveEpicsError ≠ none
          ∨ (∃ er, env.epicsResult = some er
              ∧ (extract_epics_from_result er.content).isEmpty = true)
          ∨ env.mergeError ≠ none) →
          (run_pipeline env pid).1.status = .failed) := by
    cases henv : env.epicsResult with
    | none =>
        have hstat : (run_pipeline env pid).1.status = .failed := by
          unfold run_pipeline; rw [henv]; try rfl
        have htrace : (run_pipeline env pid).2
            = [.starting, .generating_epics, .failed] := by
          unfold run_pipeline; rw [henv]; try rfl
        have herr : (run_pipeline env pid).1.error = some "Failed to generate epics" := by
          unfold run_pipeline; rw [henv]; try rfl
        have hfin : (run_pipeline env pid).1.final_file = none := by
          unfold run_pipeline; rw [henv]; try rfl
        refine ⟨by rw [htrace]; simp [List.chain'_cons, statusIdx], ?_, ?_, ?_,
          fun _ => hstat⟩
        · intro hc; rw [hstat] at hc; exact absurd hc (by decide)
        · exact Or.inr ⟨hstat, "Failed to generate epics", herr, by decide⟩
        · intro _ _; exact hfin
    | some er =>
        cases hsv : env.saveEpicsError with
        | some e =>
            have hstat : (run_pipeline env pid).1.status = .failed := by
              unfold run_pipeline; rw [henv, hsv]; try rfl
            have htrace : (run_pipeline env pid).2
                = [.starting, .generating_epics, .failed] := by
              unfold run_pipeline; rw [henv, hsv]; try rfl
            have herr : (run_pipeline env pid).1.error = some e := by
              unfold run_pipeline; rw [henv, hsv]; try rfl
            have hfin : (run_pipeline env pid).1.final_file = none := by
              unfold run_pipeline; rw [henv, hsv]; try rfl
            refine ⟨by rw [htrace]; simp [List.chain'_cons, statusIdx], ?_, ?_, ?_,
              fun _ => hstat⟩
            · intro hc; rw [hstat] at hc; exact absurd hc (by decide)
            · exact Or.inr ⟨hstat, e, herr, hsave e hsv⟩
            · intro _ _; exact hfin
        | none =>
            cases hE : (extract_epics_from_result er.content).isEmpty with
            | true =>
                have hstat : (run_pipeline env pid).1.status = .failed := by
                  unfold run_pipeline; simp only [henv, hsv, hE]; try rfl
                have htrace : (run_pipeline env pid).2
                    = [.starting, .generating_epics, .failed] := by
                  unfold run_pipeline; simp only [henv, hsv, hE]; try rfl
                have herr : (run_pipeline env pid).1.error
                    = some "No epics found in result" := by
                  unfold run_pipeline; simp only [henv, hsv, hE]; try rfl
                have hfin : (run_pipeline env pid).1.final_file = none := by
                  unfold run_pipeline; simp only [henv, hsv, hE]; try rfl
                refine ⟨by rw [htrace]; simp [List.chain'_cons, statusIdx], ?_, ?_, ?_,
                  fun _ => hstat⟩
                · intro hc; rw [hstat] at hc; exact absurd hc (by decide)
                · exact Or.inr ⟨hstat, "No epics found in result", herr, by decide⟩
                · intro _ _; exact hfin
            | false =>
                cases hm : env.mergeError with
                | some e =>
                    have hstat : (run_pipeline env pid).1.status = .failed := by
                      unfold run_pipeline; simp only [henv, hsv, hE, hm]; try rfl
                    have htrace : (run_pipeline env pid).2
                        = [.starting, .generating_epics, .generating_stories,
                           .merging, .failed] := by
                      unfold run_pipeline; simp only [henv, hsv, hE, hm]; try rfl
                    have herr : (run_pipeline env pid).1.error = some e := by
                      unfold run_pipeline; simp only [henv, hsv, hE, hm]; try rfl
                    refine ⟨by rw [htrace]; simp [List.chain'_cons, statusIdx], ?_, ?_, ?_,
                      fun _ => hstat⟩
                    · intro hc; rw [hstat] at hc; exact absurd hc (by decide)
                    · exact Or.inr ⟨hstat, e, herr, hmerge e hm⟩
                    · intro _ hnm; rw [htrace] at hnm; exact absurd (by decide) hnm
                | none =>
                    have hstat : (run_pipeline env pid).1.status = .completed := by
                      unfold run_pipeline; simp only [henv, hsv, hE, hm]; try rfl
                    have htrace : (run_pipeline env pid).2
                        = [.starting, .generating_epics, .generating_stories,
                           .merging, .completed] := by
                      unfold run_pipeline; simp only [henv, hsv, hE, hm]; try rfl
                    refine ⟨by rw [htrace]; simp [List.chain'_cons, statusIdx],
                      fun _ => htrace, Or.inl hstat, ?_, ?_⟩
                    · intro h _; rw [hstat] at h; exact absurd h (by decide)
                    · intro hdisj
                      exfalso
                      rcases hdisj with h | h | ⟨er2, her2, hemp⟩ | h
                      · exact Option.noConfusion h
                      · exact h rfl
                      · injection her2 with h2
                        subst h2
                        rw [hemp] at hE
                        exact Bool.noConfusion hE
                      · exact h rfl
  exact ⟨hmain.1, hmain.2.1, hmain.2.2.1, hmain.2.2.2.1, hmain.2.2.2.2, hstories⟩

/-- Witness for C5's amended claim: the happy-path environment, whose
exception hypotheses hold vacuously. -/
theorem run_pipeline_status_machine_amended_witness :
    List.Chain' (fun a b => statusIdx a < statusIdx b) (run_pipeline envHappy "p").2
    ∧ ((run_pipeline envHappy "p").1.status = .completed →
        (run_pipeline envHappy "p").2
          = [.starting, .generating_epics, .generating_stories, .merging, .completed])
    ∧ ((run_pipeline envHappy "p").1.status = .completed
        ∨ ((run_pipeline envHappy "p").1.status = .failed
            ∧ ∃ e, (run_pipeline envHappy "p").1.error = some e ∧ e ≠ ""))
    ∧ ((run_pipeline envHappy "p").1.status = .failed →
        PipelineStatus.merging ∉ (run_pipeline envHappy "p").2 →
        (run_pipeline envHappy "p").1.final_file = none)
    ∧ ((envHappy.epicsResult = none
        ∨ envHappy.saveEpicsError ≠ none
        ∨ (∃ er, envHappy.epicsResult = some er
            ∧ (extract_epics_from_result er.content).isEmpty = true)
        ∨ envHappy.mergeError ≠ none) →
        (run_pipeline envHappy "p").1.status = .failed)
    ∧ (∀ ok : Nat → Bool,
        (run_pipeline { envHappy with storyOk := ok } "p").1.status
            = (run_pipeline envHappy "p").1.status
        ∧ (run_pipeline { envHappy with storyOk := ok } "p").1.error
            = (run_pipeline envHappy "p").1.error
        ∧ (run_pipeline { envHappy with storyOk := ok } "p").1.final_file
            = (run_pipeline envHappy "p").1.final_file
        ∧ (run_pipeline { envHappy with storyOk := ok } "p").2
            = (run_pipeline envHappy "p").2) :=
  run_pipeline_status_machine_amended envHappy "p"
    (fun _ h => nomatch h) (fun _ h => nomatch h)

/-! ### Facts about the decrement pass of the topological sort -/

/-- Final value of the in-degree table after one decrement pass: the old
value minus the number of decrement events for the vertex. -/
theorem runEvents_fst (es : List String) (deg : String → Int) (v : String) :
    (runEvents es deg).1 v = deg v - (es.count v : Int) := by
  induction es generalizing deg with
  | nil => simp [runEvents]
  | cons e es ih =>
      simp only [runEvents]
      rw [ih]
      by_cases h : v = e
      · subst h
        simp [List.count_cons]
        omega
      · simp [List.count_cons, h, fun hh : e = v => h hh.symm]

/-- A vertex is emitted by a decrement pass exactly once when its current
degree is positive and at most the number of its events (the running value
then crosses 0 exactly once), and never otherwise. -/
theorem runEvents_snd_count (es : List String) (deg : String → Int) (v : String) :
    (runEvents es deg).2.count v
      = if 1 ≤ deg v ∧ deg v ≤ (es.count v : Int) then 1 else 0 := by
  induction es generalizing deg with
  | nil =>
      simp only [runEvents, List.count_nil]
      split_ifs with h
      · exfalso; omega
      · rfl
  | cons e es ih =>
      simp only [runEvents]
      by_cases hd : deg e - 1 = 0
      · rw [if_pos hd]
        by_cases hv : v = e
        · subst hv
          rw [List.count_cons_self]
          simp only [ih, List.count_cons_self, if_pos rfl]
          split_ifs <;> push_cast at * <;> omega
        · rw [List.count_cons_of_ne hv]
          simp only [ih, List.count_cons_of_ne hv, if_neg hv]
      · rw [if_neg hd]
        by_cases hv : v = e
        · subst hv
          simp only [ih, List.count_cons_self, if_pos rfl]
          split_ifs <;> push_cast at * <;> omega
        · simp only [ih, List.count_cons_of_ne hv, if_neg hv]

/-- Membership form of `runEvents_snd_count`. -/
theorem runEvents_snd_mem (es : List String) (deg : String → Int) (v : String) :
    v ∈ (runEvents es deg).2 ↔ 1 ≤ deg v ∧ deg v ≤ (es.count v : Int) := by
  rw [← List.count_pos_iff, runEvents_snd_count]
  split_ifs with h
  · simpa using h
  · simpa using h

/-- A decrement pass emits no vertex twice. -/
theorem runEvents_snd_nodup (es : List String) (deg : String → Int) :
    (runEvents es deg).2.Nodup := by
  rw [List.nodup_iff_count_le_one]
  intro a
  rw [runEvents_snd_count]
  split_ifs <;> omega

/-! ### Facts about the adjacency sets -/

/-- Membership in `graph[u]`: the successors of `u` are the requested
templates whose dependency list contains `u`. -/
theorem mem_succsOf (store : List AgentTemplate) (keys : List String) (u v : String) :
    v ∈ succsOf store keys u ↔ v ∈ keys ∧ u ∈ depsListOf store v := by
  unfold succsOf
  rw [(List.mergeSort_perm _ _).mem_iff]
  simp [List.mem_dedup, List.mem_filter]

/-- The successor lists are duplicate-free (they are sorted Python sets). -/
theorem nodup_succsOf (store : List AgentTemplate) (keys : List String) (u : String) :
    (succsOf store keys u).Nodup :=
  (List.mergeSort_perm _ _).symm.nodup (List.nodup_dedup _)

/-- Count of a vertex in a successor list. -/
theorem count_succsOf (store : List AgentTemplate) (keys : List String) (u v : String) :
    (succsOf store keys u).count v = if v ∈ succsOf store keys u then 1 else 0 := by
  split_ifs with h
  · have h1 := List.count_pos_iff.2 h
    have h2 := List.nodup_iff_count_le_one.1 (nodup_succsOf store keys u) v
    omega
  · exact List.count_eq_zero.2 h

/-- The decrement events of one stage, counted for one vertex: the number of
queue members that are predecessors of the vertex. -/
theorem count_stage_events (store : List AgentTemplate) (keys : List String)
    (Q : List String) (v : String) :
    (Q.flatMap (succsOf store keys)).count v
      = (Q.filter (fun u => decide (v ∈ succsOf store keys u))).length := by
  induction Q with
  | nil => simp
  | cons u Q ih =>
      rw [List.flatMap_cons, List.count_append, ih, count_succsOf]
      by_cases h : v ∈ succsOf store keys u <;> simp [h, List.filter_cons]
      omega

/-- Counting a nodup list filtered by membership equals the card of the
intersection of the corresponding finsets. -/
theorem length_filter_mem_eq_card (A B : List String) (hA : A.Nodup) :
    (A.filter (fun u => decide (u ∈ B))).length = (A.toFinset ∩ B.toFinset).card := by
  rw [← List.toFinset_card_of_nodup (hA.filter _), List.toFinset_filter]
  congr 1
  ext x
  simp

/-- For a requested vertex, the stage's decrement count is the number of its
predecessors inside the (duplicate-free) queue. -/
theorem count_stage_events_card (store : List AgentTemplate) (keys : List String)
    (Q : List String) (hQ : Q.Nodup) (hQk : ∀ u ∈ Q, u ∈ keys)
    (v : String) (hv : v ∈ keys) :
    (Q.flatMap (succsOf store keys)).count v
      = ((predsIn store keys v).toFinset ∩ Q.toFinset).card := by
  rw [count_stage_events]
  rw [← List.toFinset_card_of_nodup (hQ.filter _), List.toFinset_filter]
  rw [Finset.inter_comm]
  congr 1
  ext u
  simp only [Finset.mem_filter, List.mem_toFinset, Finset.mem_inter,
    decide_eq_true_eq, mem_succsOf, predsIn, List.mem_dedup, List.mem_filter]
  constructor
  · rintro ⟨huQ, _, hdep⟩
    exact ⟨huQ, hdep, by simpa using hQk u huQ⟩
  · rintro ⟨huQ, hdep, _⟩
    exact ⟨huQ, hv, hdep⟩

/-- The filtered-membership count in the degree invariant, as a finset
card. -/
theorem predsIn_filter_card (store : List AgentTemplate) (keys : List String)
    (v : String) (U : List String) :
    (((predsIn store keys v).filter (fun u => decide (u ∈ U))).length : Int)
      = (((predsIn store keys v).toFinset ∩ U.toFinset).card : Int) := by
  exact_mod_cast length_filter_mem_eq_card (predsIn store keys v) U (List.nodup_dedup _)

/-- The initial in-degree dominates the number of distinct restricted
predecessors, with equality when the dependency list has no duplicates. -/
theorem initialDeg_ge_card (store : List AgentTemplate) (keys : List String) (v : String) :
    ((predsIn store keys v).length : Int) ≤ initialDeg store keys v := by
  unfold initialDeg predsIn
  exact_mod_cast (List.dedup_sublist _).length_le

/-- Splitting the predecessor count over the disjoint processed part and
queue. -/
theorem preds_card_split (store : List AgentTemplate) (keys U Q : List String)
    (hdisj : U.Disjoint Q) (v : String) :
    ((predsIn store keys v).toFinset ∩ (U ++ Q).toFinset).card
      = ((predsIn store keys v).toFinset ∩ U.toFinset).card
        + ((predsIn store keys v).toFinset ∩ Q.toFinset).card := by
  rw [List.toFinset_append, Finset.inter_union_distrib_left]
  exact Finset.card_union_of_disjoint
    ((List.disjoint_toFinset_iff_disjoint.2 hdisj).mono
      Finset.inter_subset_right Finset.inter_subset_right)

/-- One stage of the Kahn loop preserves the invariant. -/
theorem kahn_step (store : List AgentTemplate) (keys U Q : List String)
    (deg : String → Int) (h : KahnInv store keys U Q deg) :
    KahnInv store keys (U ++ Q)
      (runEvents (Q.flatMap (succsOf store keys)) deg).2
      (runEvents (Q.flatMap (succsOf store keys)) deg).1 := by
  obtain ⟨hnodup, hsub, hpredsU, hpredsQ, hmultEq, hdegEq⟩ := h
  have hQnodup : Q.Nodup := (List.nodup_append.1 hnodup).2.1
  have hUnodup : U.Nodup := (List.nodup_append.1 hnodup).1
  have hdisj : U.Disjoint Q := (List.nodup_append.1 hnodup).2.2
  have hQk : ∀ u ∈ Q, u ∈ keys := fun u hu => hsub u (List.mem_append_right _ hu)
  have hcount : ∀ v ∈ keys, ((Q.flatMap (succsOf store keys)).count v : Int)
      = (((predsIn store keys v).toFinset ∩ Q.toFinset).card : Int) := fun v hv => by
    rw [count_stage_events_card store keys Q hQnodup hQk v hv]
  have hdeg : ∀ v ∈ keys, deg v = initialDeg store keys v
      - (((predsIn store keys v).toFinset ∩ U.toFinset).card : Int) := fun v hv => by
    rw [hdegEq v hv, predsIn_filter_card]
  have hcardP : ∀ v : String,
      (predsIn store keys v).toFinset.card = (predsIn store keys v).length :=
    fun v => List.toFinset_card_of_nodup (List.nodup_dedup _)
  have houtkeys : ∀ v ∈ (runEvents (Q.flatMap (succsOf store keys)) deg).2, v ∈ keys := by
    intro v hv
    have h1 := (runEvents_snd_mem _ deg v).1 hv
    have h2 : 0 < (Q.flatMap (succsOf store keys)).count v := by
      by_contra hc
      push_neg at hc
      have : ((Q.flatMap (succsOf store keys)).count v : Int) ≤ 0 := by exact_mod_cast hc
      omega
    have h3 : v ∈ Q.flatMap (succsOf store keys) := List.count_pos_iff.1 h2
    rcases List.mem_flatMap.1 h3 with ⟨u, _, hvu⟩
    exact ((mem_succsOf store keys u v).1 hvu).1
  have hout_main : ∀ v ∈ (runEvents (Q.flatMap (succsOf store keys)) deg).2,
      initialDeg store keys v = ((predsIn store keys v).length : Int)
      ∧ (∀ u ∈ predsIn store keys v, u ∈ U ++ Q) := by
    intro v hvout
    have hvk := houtkeys v hvout
    have h1 := (runEvents_snd_mem _ deg v).1 hvout
    have e1 := initialDeg_ge_card store keys v
    have e2 : initialDeg store keys v
        ≤ (((predsIn store keys v).toFinset ∩ U.toFinset).card : Int)
          + (((predsIn store keys v).toFinset ∩ Q.toFinset).card : Int) := by
      have h12 := h1.2
      rw [hdeg v hvk, hcount v hvk] at h12
      omega
    have e3 := preds_card_split store keys U Q hdisj v
    have e4 : ((predsIn store keys v).toFinset ∩ (U ++ Q).toFinset).card
        ≤ (predsIn store keys v).toFinset.card :=
      Finset.card_le_card Finset.inter_subset_left
    have heq : ((predsIn store keys v).toFinset ∩ (U ++ Q).toFinset).card
        = (predsIn store keys v).toFinset.card := by
      have hc := hcardP v
      omega
    have hPeq : (predsIn store keys v).toFinset ∩ (U ++ Q).toFinset
        = (predsIn store keys v).toFinset :=
      Finset.eq_of_subset_of_card_le Finset.inter_subset_left (le_of_eq heq.symm)
    constructor
    · have hc := hcardP v
      omega
    · intro u hu
      have hm : u ∈ (predsIn store keys v).toFinset := List.mem_toFinset.2 hu
      rw [← hPeq] at hm
      exact List.mem_toFinset.1 (Finset.mem_inter.1 hm).2
  refine ⟨?_, ?_, ?_, ?_, ?_, ?_⟩
  · rw [List.nodup_append]
    refine ⟨hnodup, runEvents_snd_nodup _ _, ?_⟩
    intro v hvUQ hvout
    have hvk := hsub v hvUQ
    have hallU : ∀ u ∈ predsIn store keys v, u ∈ U := by
      rcases List.mem_append.1 hvUQ with hU | hQ
      · exact hpredsU v hU
      · exact hpredsQ v hQ
    have hPU : (predsIn store keys v).toFinset ∩ U.toFinset
        = (predsIn store keys v).toFinset :=
      Finset.inter_eq_left.2 fun x hx =>
        List.mem_toFinset.2 (hallU x (List.mem_toFinset.1 hx))
    have h1 := ((runEvents_snd_mem _ deg v).1 hvout).1
    rw [hdeg v hvk, hPU, hcardP v, hmultEq v hvUQ] at h1
    omega
  · intro v hv
    rcases List.mem_append.1 hv with hv | hv
    · exact hsub v hv
    · exact houtkeys v hv
  · intro v hv u hu
    rcases List.mem_append.1 hv with hv | hv
    · exact List.mem_append_left _ (hpredsU v hv u hu)
    · exact List.mem_append_left _ (hpredsQ v hv u hu)
  · intro v hv
    exact (hout_main v hv).2
  · intro v hv
    rcases List.mem_append.1 hv with hv | hv
    · exact hmultEq v hv
    · exact (hout_main v hv).1
  · intro v hvk
    rw [runEvents_fst, hdeg v hvk, hcount v hvk, predsIn_filter_card]
    have := preds_card_split store keys U Q hdisj v
    omega

/-- One stage of the Kahn loop preserves readiness: every requested vertex
whose predecessors are all scheduled is itself scheduled (this needs
duplicate-free dependency lists, via `hmult`). -/
theorem kahn_step_ready (store : List AgentTemplate) (keys U Q : List String)
    (deg : String → Int) (h : KahnInv store keys U Q deg)
    (hmult : ∀ v ∈ keys, initialDeg store keys v = ((predsIn store keys v).length : Int))
    (hr : KahnReady store keys U Q) :
    KahnReady store keys (U ++ Q) (runEvents (Q.flatMap (succsOf store keys)) deg).2 := by
  intro v hv hpre
  by_cases hUQ : v ∈ U ++ Q
  · exact Or.inl hUQ
  right
  obtain ⟨hnodup, hsub, hpredsU, hpredsQ, hmultEq, hdegEq⟩ := h
  have hQnodup : Q.Nodup := (List.nodup_append.1 hnodup).2.1
  have hdisj : U.Disjoint Q := (List.nodup_append.1 hnodup).2.2
  have hQk : ∀ u ∈ Q, u ∈ keys := fun u hu => hsub u (List.mem_append_right _ hu)
  have hcount : ((Q.flatMap (succsOf store keys)).count v : Int)
      = (((predsIn store keys v).toFinset ∩ Q.toFinset).card : Int) := by
    rw [count_stage_events_card store keys Q hQnodup hQk v hv]
  have hdeg : deg v = initialDeg store keys v
      - (((predsIn store keys v).toFinset ∩ U.toFinset).card : Int) := by
    rw [hdegEq v hv, predsIn_filter_card]
  have hcardP : (predsIn store keys v).toFinset.card = (predsIn store keys v).length :=
    List.toFinset_card_of_nodup (List.nodup_dedup _)
  have hnotallU : ¬ (∀ u ∈ predsIn store keys v, u ∈ U) := by
    intro hall
    rcases hr v hv hall with hU | hQ
    · exact hUQ (List.mem_append_left _ hU)
    · exact hUQ (List.mem_append_right _ hQ)
  push_neg at hnotallU
  obtain ⟨u0, hu0preds, hu0U⟩ := hnotallU
  have hlt : ((predsIn store keys v).toFinset ∩ U.toFinset).card
      < (predsIn store keys v).toFinset.card := by
    apply Finset.card_lt_card
    constructor
    · exact Finset.inter_subset_left
    · intro hsubset
      exact hu0U (List.mem_toFinset.1
        (Finset.mem_inter.1 (hsubset (List.mem_toFinset.2 hu0preds))).2)
  have hPsub : (predsIn store keys v).toFinset ⊆ (U ++ Q).toFinset := fun x hx =>
    List.mem_toFinset.2 (hpre x (List.mem_toFinset.1 hx))
  have hfull : ((predsIn store keys v).toFinset ∩ (U ++ Q).toFinset).card
      = (predsIn store keys v).toFinset.card := by
    rw [Finset.inter_eq_left.2 hPsub]
  have hsplit := preds_card_split store keys U Q hdisj v
  rw [runEvents_snd_mem, hdeg, hcount, hmult v hv]
  constructor
  · omega
  · omega

/-- Master lemma of the staged Kahn loop: with enough fuel the loop drains its
queue; the flattened stages extend the invariant with an empty final queue,
readiness is preserved (given duplicate-free dependency lists), and every
stage member's predecessors lie in strictly earlier stages. -/
theorem kahn_run (store : List AgentTemplate) (keys : List String) :
    ∀ (fuel : Nat) (U Q : List String) (deg : String → Int),
      KahnInv store keys U Q deg →
      keys.length < U.length + fuel →
      (∃ degF, KahnInv store keys
          (U ++ (kahnStages (succsOf store keys) fuel Q deg).flatten) [] degF)
      ∧ ((∀ v ∈ keys, initialDeg store keys v = ((predsIn store keys v).length : Int)) →
          KahnReady store keys U Q →
          KahnReady store keys
            (U ++ (kahnStages (succsOf store keys) fuel Q deg).flatten) [])
      ∧ (∀ (k : Nat) (hk : k < (kahnStages (succsOf store keys) fuel Q deg).length),
          ∀ v ∈ (kahnStages (succsOf store keys) fuel Q deg).get ⟨k, hk⟩,
            ∀ u ∈ predsIn store keys v,
              u ∈ U ++ ((kahnStages (succsOf store keys) fuel Q deg).take k).flatten) := by
  intro fuel
  induction fuel with
  | zero =>
      intro U Q deg h hfuel
      exfalso
      have hUsub : U ⊆ keys := fun u hu => h.sub u (List.mem_append_left _ hu)
      have hUnodup : U.Nodup := (List.nodup_append.1 h.nodup).1
      have := (hUnodup.subperm hUsub).length_le
      omega
  | succ fuel ih =>
      intro U Q deg h hfuel
      by_cases hQ : Q.isEmpty
      · have hQnil : Q = [] := List.isEmpty_iff.1 hQ
        subst hQnil
        have hstages : kahnStages (succsOf store keys) (fuel + 1) [] deg = [] := rfl
        rw [hstages]
        refine ⟨⟨deg, ?_⟩, ?_, ?_⟩
        · simpa using h
        · intro _ hr v hv hpre
          rcases hr v hv (fun u hu => by simpa using hpre u hu) with hU | hnil
          · exact Or.inl (by simpa using hU)
          · exact absurd hnil (List.not_mem_nil v)
        · intro k hk
          exact absurd hk (by simp)
      · have hQne : Q ≠ [] := fun hh => by simp [hh] at hQ
        have hQf : Q.isEmpty = false := by
          cases hqe : Q.isEmpty
          · rfl
          · exact absurd hqe hQ
        have hstages : kahnStages (succsOf store keys) (fuel + 1) Q deg
            = Q :: kahnStages (succsOf store keys) fuel
                (runEvents (Q.flatMap (succsOf store keys)) deg).2
                (runEvents (Q.flatMap (succsOf store keys)) deg).1 := by
          rw [kahnStages, hQf]
          simp
        have hstep := kahn_step store keys U Q deg h
        have hfuel' : keys.length < (U ++ Q).length + fuel := by
          have h1 : 1 ≤ Q.length := List.length_pos.2 hQne
          rw [List.length_append]
          omega
        obtain ⟨hInvF, hReadyF, hOrdF⟩ :=
          ih (U ++ Q) (runEvents (Q.flatMap (succsOf store keys)) deg).2
            (runEvents (Q.flatMap (succsOf store keys)) deg).1 hstep hfuel'
        refine ⟨?_, ?_, ?_⟩
        · obtain ⟨degF, hdegF⟩ := hInvF
          refine ⟨degF, ?_⟩
          rw [hstages, List.flatten_cons, ← List.append_assoc]
          exact hdegF
        · intro hmult hr
          have hr' := kahn_step_ready store keys U Q deg h hmult hr
          have hres := hReadyF hmult hr'
          rw [hstages, List.flatten_cons, ← List.append_assoc]
          exact hres
        · intro k hk v hv u hu
          have hget := List.get_of_eq hstages ⟨k, hk⟩
          rw [hget] at hv
          rw [hstages]
          cases k with
          | zero =>
              have hvQ : v ∈ Q := by simpa using hv
              have huU := h.predsQ v hvQ u hu
              simpa using huU
          | succ k =>
              have hk2 := hk
              rw [hstages] at hk2
              have hk' : k < (kahnStages (succsOf store keys) fuel
                  (runEvents (Q.flatMap (succsOf store keys)) deg).2
                  (runEvents (Q.flatMap (succsOf store keys)) deg).1).length := by
                simpa using hk2
              have hres := hOrdF k hk' v (by simpa using hv) u hu
              rw [List.take_succ_cons, List.flatten_cons, ← List.append_assoc]
              exact hres

/-- Zeta-free normal form of `execute_multiple_templates` (definitional). -/
theorem execute_multiple_templates_eq (g : LLMOracle) (store : List AgentTemplate)
    (template_ids : List String) (ui : String) (ctx : ExecContext) :
    execute_multiple_templates g store template_ids ui ctx
      = match template_ids.find? (fun tid => (lookupTemplate store tid).isNone) with
        | some tid => (.error ("Template not found: " ++ tid), [])
        | none =>
            if ((kahnStages (succsOf store template_ids.dedup) (template_ids.length + 1)
                  (template_ids.filter (fun tid =>
                    decide (initialDeg store template_ids.dedup tid = 0)))
                  (initialDeg store template_ids.dedup)).map List.length).sum
                ≠ template_ids.length then
              (.error circularDependencyMsg, [])
            else
              runStagesGo g store ui ctx template_ids
                (kahnStages (succsOf store template_ids.dedup) (template_ids.length + 1)
                  (template_ids.filter (fun tid =>
                    decide (initialDeg store template_ids.dedup tid = 0)))
                  (initialDeg store template_ids.dedup))
                (fun _ => none) [] := rfl

/-- Membership in the restricted predecessor list. -/
theorem mem_predsIn (store : List AgentTemplate) (keys : List String) (u v : String) :
    u ∈ predsIn store keys v ↔ u ∈ depsListOf store v ∧ u ∈ keys := by
  unfold predsIn
  simp

/-- A vertex with initial in-degree 0 has no restricted predecessors. -/
theorem predsIn_eq_nil_of_deg_zero (store : List AgentTemplate) (keys : List String)
    (v : String) (h : initialDeg store keys v = 0) : predsIn store keys v = [] := by
  unfold initialDeg at h
  unfold predsIn
  have hlen : ((depsListOf store v).filter (fun d => decide (d ∈ keys))).length = 0 := by
    exact_mod_cast h
  rw [List.length_eq_zero.1 hlen]
  rfl

/-- Duplicate-free dependency lists make the initial in-degree equal the
number of distinct restricted predecessors. -/
theorem initialDeg_eq_of_nodup (store : List AgentTemplate) (keys : List String)
    (v : String) (h : (depsListOf store v).Nodup) :
    initialDeg store keys v = ((predsIn store keys v).length : Int) := by
  unfold initialDeg predsIn
  rw [List.dedup_eq_self.2 (h.filter _)]

/-- The invariant holds at loop entry (stage 0 queue, initial degrees). -/
theorem kahn_base (store : List AgentTemplate) (ids : List String) (hnd : ids.Nodup) :
    KahnInv store ids []
      (ids.filter (fun tid => decide (initialDeg store ids tid = 0)))
      (initialDeg store ids) := by
  refine ⟨?_, ?_, ?_, ?_, ?_, ?_⟩
  · simpa using hnd.filter _
  · intro v hv
    rw [List.nil_append] at hv
    exact List.mem_of_mem_filter hv
  · intro v hv
    exact absurd hv (List.not_mem_nil v)
  · intro v hv u hu
    have hv2 : v ∈ ids.filter (fun tid => decide (initialDeg store ids tid = 0)) := by
      simpa using hv
    have h0 : initialDeg store ids v = 0 := by simpa using List.of_mem_filter hv2
    rw [predsIn_eq_nil_of_deg_zero store ids v h0] at hu
    exact absurd hu (List.not_mem_nil u)
  · intro v hv
    have hv2 : v ∈ ids.filter (fun tid => decide (initialDeg store ids tid = 0)) := by
      simpa using hv
    have h0 : initialDeg store ids v = 0 := by simpa using List.of_mem_filter hv2
    rw [h0, predsIn_eq_nil_of_deg_zero store ids v h0]
    rfl
  · intro v _
    simp

/-- Readiness holds at loop entry when dependency lists are duplicate-free:
a vertex with no restricted predecessors has in-degree 0, so it is in the
initial queue. -/
theorem kahn_ready_base (store : List AgentTemplate) (ids : List String)
    (hmult : ∀ v ∈ ids, initialDeg store ids v = ((predsIn store ids v).length : Int)) :
    KahnReady store ids []
      (ids.filter (fun tid => decide (initialDeg store ids tid = 0))) := by
  intro v hv hpre
  right
  have hnil : predsIn store ids v = [] := by
    cases hp : predsIn store ids v with
    | nil => rfl
    | cons u rest =>
        exact absurd (hpre u (by rw [hp]; exact List.mem_cons_self u rest))
          (List.not_mem_nil u)
  rw [List.mem_filter]
  refine ⟨hv, ?_⟩
  rw [hmult v hv, hnil]
  simp

/-- Index of an element of the flattening of a prefix of a list of lists. -/
theorem mem_flatten_take {α : Type} (L : List (List α)) (k : Nat) (x : α) :
    x ∈ (L.take k).flatten → ∃ j, ∃ hj : j < L.length, j < k ∧ x ∈ L.get ⟨j, hj⟩ := by
  induction L generalizing k with
  | nil => simp
  | cons l L ih =>
      cases k with
      | zero => simp
      | succ k =>
          intro hx
          rw [List.take_succ_cons, List.flatten_cons] at hx
          rcases List.mem_append.1 hx with h | h
          · exact ⟨0, by simp, by omega, by simpa using h⟩
          · rcases ih k h with ⟨j, hj, hjk, hmem⟩
            exact ⟨j + 1, by simpa using Nat.succ_lt_succ hj, by omega, by simpa using hmem⟩

/-- Soundness bundle for the stages computed by the executor (no acyclicity
needed): the flattened stages are duplicate-free requested ids, and every
stage member's restricted predecessors lie in strictly earlier stages. -/
theorem kahn_stages_sound (store : List AgentTemplate) (ids : List String)
    (hnd : ids.Nodup) :
    (kahnStages (succsOf store ids) (ids.length + 1)
        (ids.filter (fun tid => decide (initialDeg store ids tid = 0)))
        (initialDeg store ids)).flatten.Nodup
    ∧ (∀ v ∈ (kahnStages (succsOf store ids) (ids.length + 1)
        (ids.filter (fun tid => decide (initialDeg store ids tid = 0)))
        (initialDeg store ids)).flatten, v ∈ ids)
    ∧ (∀ (k : Nat) (hk : k < (kahnStages (succsOf store ids) (ids.length + 1)
          (ids.filter (fun tid => decide (initialDeg store ids tid = 0)))
          (initialDeg store ids)).length),
        ∀ v ∈ (kahnStages (succsOf store ids) (ids.length + 1)
          (ids.filter (fun tid => decide (initialDeg store ids tid = 0)))
          (initialDeg store ids)).get ⟨k, hk⟩,
        ∀ u ∈ predsIn store ids v,
          u ∈ ((kahnStages (succsOf store ids) (ids.length + 1)
            (ids.filter (fun tid => decide (initialDeg store ids tid = 0)))
            (initialDeg store ids)).take k).flatten) := by
  obtain ⟨⟨degF, hInvF⟩, _, hOrd⟩ :=
    kahn_run store ids (ids.length + 1) []
      (ids.filter (fun tid => decide (initialDeg store ids tid = 0)))
      (initialDeg store ids) (kahn_base store ids hnd) (by simp)
  refine ⟨?_, ?_, ?_⟩
  · have := hInvF.nodup
    simpa using this
  · intro v hv
    exact hInvF.sub v (by simpa using hv)
  · intro k hk v hv u hu
    have := hOrd k hk v hv u hu
    simpa using this

/-- Full specification of the stages under the C1 hypotheses: additionally,
every requested id is scheduled and the coverage count matches. -/
theorem kahn_stages_spec (store : List AgentTemplate) (ids : List String)
    (hnd : ids.Nodup)
    (hdn : ∀ tid ∈ ids, (depsListOf store tid).Nodup)
    (hrank : RankedDag store ids) :
    (∀ v ∈ ids, v ∈ (kahnStages (succsOf store ids) (ids.length + 1)
        (ids.filter (fun tid => decide (initialDeg store ids tid = 0)))
        (initialDeg store ids)).flatten)
    ∧ ((kahnStages (succsOf store ids) (ids.length + 1)
        (ids.filter (fun tid => decide (initialDeg store ids tid = 0)))
        (initialDeg store ids)).map List.length).sum = ids.length := by
  have hmult : ∀ v ∈ ids, initialDeg store ids v = ((predsIn store ids v).length : Int) :=
    fun v hv => initialDeg_eq_of_nodup store ids v (hdn v hv)
  obtain ⟨⟨degF, hInvF⟩, hReady, _⟩ :=
    kahn_run store ids (ids.length + 1) []
      (ids.filter (fun tid => decide (initialDeg store ids tid = 0)))
      (initialDeg store ids) (kahn_base store ids hnd) (by simp)
  have hReadyF := hReady hmult (kahn_ready_base store ids hmult)
  obtain ⟨rank, hrk⟩ := hrank
  have hcov : ∀ n : Nat, ∀ v ∈ ids, rank v < n →
      v ∈ (kahnStages (succsOf store ids) (ids.length + 1)
        (ids.filter (fun tid => decide (initialDeg store ids tid = 0)))
        (initialDeg store ids)).flatten := by
    intro n
    induction n with
    | zero => intro v _ h0; exact absurd h0 (by omega)
    | succ n ihn =>
        intro v hv hlt
        have hpre : ∀ u ∈ predsIn store ids v,
            u ∈ [] ++ (kahnStages (succsOf store ids) (ids.length + 1)
              (ids.filter (fun tid => decide (initialDeg store ids tid = 0)))
              (initialDeg store ids)).flatten := by
          intro u hu
          rw [mem_predsIn] at hu
          have hru := hrk v hv u hu.1 hu.2
          exact List.mem_append_right _ (ihn u hu.2 (by omega))
        rcases hReadyF v hv hpre with h | h
        · simpa using h
        · exact absurd h (List.not_mem_nil v)
  constructor
  · intro v hv
    exact hcov (rank v + 1) v hv (by omega)
  · have hflatnodup : (kahnStages (succsOf store ids) (ids.length + 1)
        (ids.filter (fun tid => decide (initialDeg store ids tid = 0)))
        (initialDeg store ids)).flatten.Nodup := by
      simpa using hInvF.nodup
    have hflatsub : ∀ v ∈ (kahnStages (succsOf store ids) (ids.length + 1)
        (ids.filter (fun tid => decide (initialDeg store ids tid = 0)))
        (initialDeg store ids)).flatten, v ∈ ids :=
      fun v hv => hInvF.sub v (by simpa using hv)
    have hperm : (kahnStages (succsOf store ids) (ids.length + 1)
        (ids.filter (fun tid => decide (initialDeg store ids tid = 0)))
        (initialDeg store ids)).flatten.Perm ids :=
      (hflatnodup.subperm hflatsub).antisymm
        (hnd.subperm (fun v hv => hcov (rank v + 1) v hv (by omega)))
    rw [← List.length_flatten]
    exact hperm.length_eq

/-! ### Facts about single-agent execution and the stage fold -/

/-- The stored template found for an id carries that id. -/
theorem lookupTemplate_id (store : List AgentTemplate) (tid : String)
    (t : AgentTemplate) (h : lookupTemplate store tid = some t) : t.id = tid := by
  have := List.find?_some h
  simpa using this

/-- Result id and call log of a standard-agent execution. -/
theorem execute_standard_agent_spec (g : LLMOracle) (t : AgentTemplate)
    (ctx : ExecContext) (p : String) :
    (execute_standard_agent g t ctx p).1.template_id = t.id
    ∧ (execute_standard_agent g t ctx p).2 = [⟨t.id, ctx, p⟩] := by
  unfold execute_standard_agent
  cases g p <;> exact ⟨rfl, rfl⟩

/-- Result id and call log of a questions-agent execution. -/
theorem execute_questions_agent_spec (g : LLMOracle) (t : AgentTemplate)
    (ctx : ExecContext) (ui : String) :
    (execute_questions_agent g t ctx ui).1.template_id = t.id
    ∧ (execute_questions_agent g t ctx ui).2 = [⟨t.id, ctx, questionsPrompt t ctx ui⟩] := by
  unfold execute_questions_agent
  cases g (questionsPrompt t ctx ui) <;> exact ⟨rfl, rfl⟩

/-- Result id and call log of a rerun-agent execution. -/
theorem execute_rerun_agent_spec (g : LLMOracle) (t : AgentTemplate)
    (ctx : ExecContext) (ui : String) :
    (execute_rerun_agent g t ctx ui).1.template_id = t.id
    ∧ (execute_rerun_agent g t ctx ui).2
        = (List.range 5).map
            (fun i => ⟨t.id, ctx, variationPrompt (rerunBasePrompt t ctx ui) i⟩) :=
  ⟨rfl, rfl⟩

/-- Once the id resolves, `execute_agent_template` always returns a result
(never an error), the result is keyed by the requested id, and at least one
LLM call is issued, each recorded with the requested id and the passed
context. -/
theorem execute_agent_template_ok (g : LLMOracle) (store : List AgentTemplate)
    (tid ui : String) (ctx : ExecContext) (t : AgentTemplate)
    (h : lookupTemplate store tid = some t) :
    ∃ r log, execute_agent_template g store tid ui ctx = (.ok r, log)
      ∧ r.template_id = tid
      ∧ log ≠ []
      ∧ (∀ rec ∈ log, rec.template_id = tid ∧ rec.context = ctx) := by
  have hid := lookupTemplate_id store tid t h
  have hred : execute_agent_template g store tid ui ctx
      = match t.type with
        | .RERUN =>
            (.ok (execute_rerun_agent g t ctx ui).1, (execute_rerun_agent g t ctx ui).2)
        | .QUESTIONS =>
            (.ok (execute_questions_agent g t ctx ui).1,
             (execute_questions_agent g t ctx ui).2)
        | _ =>
            (.ok (execute_standard_agent g t ctx (standardFullPrompt t ctx ui)).1,
             (execute_standard_agent g t ctx (standardFullPrompt t ctx ui)).2) := by
    unfold execute_agent_template
    rw [h]
  rw [hred]
  cases hty : t.type
  case RERUN =>
      refine ⟨_, _, rfl, ?_, ?_, ?_⟩
      · rw [(execute_rerun_agent_spec g t ctx ui).1, hid]
      · rw [(execute_rerun_agent_spec g t ctx ui).2]
        simp
      · intro rec hrec
        rw [(execute_rerun_agent_spec g t ctx ui).2] at hrec
        rcases List.mem_map.1 hrec with ⟨i, _, rfl⟩
        exact ⟨hid, rfl⟩
  case QUESTIONS =>
      refine ⟨_, _, rfl, ?_, ?_, ?_⟩
      · rw [(execute_questions_agent_spec g t ctx ui).1, hid]
      · rw [(execute_questions_agent_spec g t ctx ui).2]
        simp
      · intro rec hrec
        rw [(execute_questions_agent_spec g t ctx ui).2] at hrec
        rw [List.mem_singleton] at hrec
        subst hrec
        exact ⟨hid, rfl⟩
  all_goals
    refine ⟨_, _, rfl, ?_, ?_, ?_⟩ <;>
      [skip; skip; intro rec hrec] <;>
      [rw [(execute_standard_agent_spec g t ctx (standardFullPrompt t ctx ui)).1, hid];
       (rw [(execute_standard_agent_spec g t ctx (standardFullPrompt t ctx ui)).2]; simp);
       (rw [(execute_standard_agent_spec g t ctx (standardFullPrompt t ctx ui)).2] at hrec;
        rw [List.mem_singleton] at hrec; subst hrec; exact ⟨hid, rfl⟩)]

/-- A nonempty dependency-output list is installed in the execution
context. -/
theorem stageCtx_dep (base : ExecContext) (depOut : List AgentExecutionResult)
    (h : depOut ≠ []) : (stageCtx base depOut).dependency_results = depOut := by
  unfold stageCtx
  rw [if_neg (by simpa using h)]

/-- The content of every dependency result is one of the context parts the
prompt is built from. -/
theorem content_mem_parts (ctx : ExecContext) (r : AgentExecutionResult)
    (h : r ∈ ctx.dependency_results) : r.content ∈ buildContextParts ctx := by
  unfold buildContextParts
  have hne : ¬ ctx.dependency_results.isEmpty := by
    cases hc : ctx.dependency_results with
    | nil => rw [hc] at h; exact absurd h (List.not_mem_nil r)
    | cons a l => simp
  rw [if_neg hne]
  refine List.mem_append_right _ ?_
  refine List.mem_append_left _ (List.mem_cons_of_mem _ ?_)
  exact List.mem_flatMap.2 ⟨r, h, by unfold depResultParts; simp⟩

/-- Updating the executed map does not change ids outside the written
results. -/
theorem updateExecuted_of_not_mem (executed : String → Option AgentExecutionResult)
    (rs : List AgentExecutionResult) (tid : String)
    (h : tid ∉ rs.map (fun r => r.template_id)) :
    updateExecuted executed rs tid = executed tid := by
  induction rs generalizing executed with
  | nil => rfl
  | cons r rs ih =>
      have h1 : tid ∉ rs.map (fun r => r.template_id) := by
        intro hc; exact h (by simp [hc])
      have h2 : tid ≠ r.template_id := by
        intro hc; exact h (by simp [hc])
      show updateExecuted (fun k => if k = r.template_id then some r else executed k) rs tid
          = executed tid
      rw [ih _ h1]
      simp [h2]

/-- Domain of the updated executed map. -/
theorem updateExecuted_isSome (executed : String → Option AgentExecutionResult)
    (rs : List AgentExecutionResult) (tid : String) :
    (updateExecuted executed rs tid).isSome
      ↔ (executed tid).isSome ∨ tid ∈ rs.map (fun r => r.template_id) := by
  induction rs generalizing executed with
  | nil => simp [updateExecuted]
  | cons r rs ih =>
      show (updateExecuted (fun k => if k = r.template_id then some r else executed k) rs tid).isSome ↔ _
      rw [ih]
      by_cases h : tid = r.template_id <;> simp [h]

/-- The updated executed map stays keyed by `template_id`. -/
theorem updateExecuted_keyinv (executed : String → Option AgentExecutionResult)
    (rs : List AgentExecutionResult)
    (h : ∀ tid r, executed tid = some r → r.template_id = tid) :
    ∀ tid r, updateExecuted executed rs tid = some r → r.template_id = tid := by
  induction rs generalizing executed with
  | nil => exact h
  | cons r0 rs ih =>
      intro tid r hr
      refine ih (fun k => if k = r0.template_id then some r0 else executed k) ?_ tid r hr
      intro k x hk
      replace hk : (if k = r0.template_id then some r0 else executed k) = some x := hk
      by_cases hke : k = r0.template_id
      · rw [if_pos hke] at hk
        cases hk
        exact hke.symm
      · rw [if_neg hke] at hk
        exact h k x hk

/-- Execution of one stage under resolvable ids: the stage never raises, the
results are keyed in stage order, and the call log covers exactly the stage's
templates, each call recording the context built from the executed map. -/
theorem execStage_ok (g : LLMOracle) (store : List AgentTemplate) (ui : String)
    (base : ExecContext) (executed : String → Option AgentExecutionResult)
    (stage : List String)
    (h : ∀ tid ∈ stage, (lookupTemplate store tid).isSome) :
    ∃ rs slog, execStage g store ui base executed stage = .ok (rs, slog)
      ∧ rs.map (fun r => r.template_id) = stage
      ∧ (∀ rec ∈ slog, rec.template_id ∈ stage
          ∧ rec.context = stageCtx base (dependencyOutputs store executed rec.template_id))
      ∧ (∀ tid ∈ stage, ∃ rec ∈ slog, rec.template_id = tid) := by
  induction stage with
  | nil => exact ⟨[], [], rfl, rfl, by simp, by simp⟩
  | cons tid rest ih =>
      obtain ⟨t, ht⟩ := Option.isSome_iff_exists.1 (h tid (List.mem_cons_self tid rest))
      obtain ⟨r, log, hexec, hrid, hlogne, hrecs⟩ :=
        execute_agent_template_ok g store tid ui
          (stageCtx base (dependencyOutputs store executed tid)) t ht
      obtain ⟨rs, slog, hrest, hmap, hrecs2, hcov⟩ :=
        ih (fun x hx => h x (List.mem_cons_of_mem _ hx))
      refine ⟨r :: rs, log ++ slog, ?_, ?_, ?_, ?_⟩
      · simp only [execStage, hexec, hrest]
      · simp [hmap, hrid]
      · intro rec hrec
        rcases List.mem_append.1 hrec with h1 | h1
        · obtain ⟨hrtid, hrctx⟩ := hrecs rec h1
          exact ⟨by simp [hrtid], by rw [hrctx, hrtid]⟩
        · obtain ⟨hrtid, hrctx⟩ := hrecs2 rec h1
          exact ⟨List.mem_cons_of_mem _ hrtid, hrctx⟩
      · intro x hx
        rcases List.mem_cons.1 hx with h1 | h1
        · subst h1
          obtain ⟨rec, hrec⟩ := List.exists_mem_of_ne_nil log hlogne
          exact ⟨rec, List.mem_append_left _ hrec, (hrecs rec hrec).1⟩
        · obtain ⟨rec, hrec, hrtid⟩ := hcov x h1
          exact ⟨rec, List.mem_append_right _ hrec, hrtid⟩

/-- Master specification of the stage-by-stage execution loop: under
resolvable ids and duplicate-free stages, it returns the reordered results
without raising; the final executed map is keyed by template id, covers
exactly the processed ids, preserves earlier values, and the call log covers
exactly the staged templates. -/
theorem runStagesGo_main (g : LLMOracle) (store : List AgentTemplate) (ui : String)
    (base : ExecContext) (ids : List String) :
    ∀ (stages : List (List String)) (executed : String → Option AgentExecutionResult)
      (log : List CallRecord) (P : List String),
      (∀ tid ∈ stages.flatten, (lookupTemplate store tid).isSome) →
      (∀ tid, (executed tid).isSome ↔ tid ∈ P) →
      (∀ tid r, executed tid = some r → r.template_id = tid) →
      (P ++ stages.flatten).Nodup →
      ∃ executedF logTail,
        runStagesGo g store ui base ids stages executed log
          = (.ok (ids.filterMap executedF), log ++ logTail)
        ∧ (∀ tid, (executedF tid).isSome ↔ (tid ∈ P ∨ tid ∈ stages.flatten))
        ∧ (∀ tid r, executedF tid = some r → r.template_id = tid)
        ∧ (∀ tid ∈ P, executedF tid = executed tid)
        ∧ (∀ rec ∈ logTail, rec.template_id ∈ stages.flatten)
        ∧ (∀ tid ∈ stages.flatten, ∃ rec ∈ logTail, rec.template_id = tid) := by
  intro stages
  induction stages with
  | nil =>
      intro executed log P hres hdom hkey hnd
      refine ⟨executed, [], by simp [runStagesGo], ?_, hkey, fun _ _ => rfl, by simp, by simp⟩
      intro tid
      rw [hdom tid]
      simp
  | cons stage rest ih =>
      intro executed log P hres hdom hkey hnd
      have hstage_res : ∀ tid ∈ stage, (lookupTemplate store tid).isSome := fun tid h1 =>
        hres tid (by rw [List.flatten_cons]; exact List.mem_append_left _ h1)
      obtain ⟨rs, slog, hstage, hmap, hrecs, hcov⟩ :=
        execStage_ok g store ui base executed stage hstage_res
      have hdom2 : ∀ tid, ((updateExecuted executed rs) tid).isSome ↔ tid ∈ P ++ stage := by
        intro tid
        rw [updateExecuted_isSome, hdom, hmap, List.mem_append]
      have hkey2 := updateExecuted_keyinv executed rs hkey
      have hnd2 : ((P ++ stage) ++ rest.flatten).Nodup := by
        rw [List.append_assoc]
        rw [List.flatten_cons] at hnd
        simpa [List.append_assoc] using hnd
      have hres2 : ∀ tid ∈ rest.flatten, (lookupTemplate store tid).isSome := fun tid h1 =>
        hres tid (by rw [List.flatten_cons]; exact List.mem_append_right _ h1)
      obtain ⟨executedF, logTail, hrun, hdomF, hkeyF, hpresF, hrecsF, hcovF⟩ :=
        ih (updateExecuted executed rs) (log ++ slog) (P ++ stage) hres2 hdom2 hkey2 hnd2
      refine ⟨executedF, slog ++ logTail, ?_, ?_, hkeyF, ?_, ?_, ?_⟩
      · simp only [runStagesGo, hstage]
        rw [hrun, List.append_assoc]
      · intro tid
        rw [hdomF tid, List.flatten_cons, List.mem_append, List.mem_append]
        tauto
      · intro tid htid
        rw [hpresF tid (List.mem_append_left _ htid)]
        apply updateExecuted_of_not_mem
        rw [hmap]
        intro hc
        have hdisj := (List.nodup_append.1 hnd).2.2
        exact hdisj htid (by rw [List.flatten_cons]; exact List.mem_append_left _ hc)
      · intro rec hrec
        rw [List.flatten_cons]
        rcases List.mem_append.1 hrec with h1 | h1
        · exact List.mem_append_left _ (hrecs rec h1).1
        · exact List.mem_append_right _ (hrecsF rec h1)
      · intro tid htid
        rw [List.flatten_cons] at htid
        rcases List.mem_append.1 htid with h1 | h1
        · obtain ⟨rec, hr1, hr2⟩ := hcov tid h1
          exact ⟨rec, List.mem_append_left _ hr1, hr2⟩
        · obtain ⟨rec, hr1, hr2⟩ := hcovF tid h1
          exact ⟨rec, List.mem_append_right _ hr1, hr2⟩

/-- Reordering: when every requested id has an executed result keyed by that
id, the final comprehension returns exactly one result per id, in request
order. -/
theorem filterMap_map_template_id (f : String → Option AgentExecutionResult) :
    ∀ ids : List String, (∀ tid ∈ ids, ∃ r, f tid = some r ∧ r.template_id = tid) →
      (ids.filterMap f).map (fun r => r.template_id) = ids := by
  intro ids
  induction ids with
  | nil => simp
  | cons tid rest ih =>
      intro h
      obtain ⟨r, hr, hrid⟩ := h tid (List.mem_cons_self _ _)
      rw [List.filterMap_cons, hr]
      simp only [List.map_cons, hrid]
      rw [ih (fun x hx => h x (List.mem_cons_of_mem _ hx))]

/-! ### C1: input-order results for DAG selections -/

/-- C1: for every duplicate-free list of resolvable template ids whose
declared dependencies (sets, per the data model) restricted to the list form
a DAG, `execute_multiple_templates` succeeds and returns exactly one result
per requested id, keyed by it, in exactly the caller's requested order —
independent of the internal stage order. -/
theorem execute_multiple_in_input_order (g : LLMOracle) (store : List AgentTemplate)
    (ids : List String) (ui : String) (ctx : ExecContext)
    (hnd : ids.Nodup)
    (hres : ∀ tid ∈ ids, (lookupTemplate store tid).isSome)
    (hdn : ∀ tid ∈ ids, (depsListOf store tid).Nodup)
    (hrank : RankedDag store ids) :
    ∃ rs log, execute_multiple_templates g store ids ui ctx = (.ok rs, log)
      ∧ rs.map (fun r => r.template_id) = ids := by
  rw [execute_multiple_templates_eq]
  have hfind : ids.find? (fun tid => (lookupTemplate store tid).isNone) = none := by
    rw [List.find?_eq_none]
    intro x hx
    have hs := hres x hx
    cases hl : lookupTemplate store x with
    | none => rw [hl] at hs; exact absurd hs (by simp)
    | some t => simp [hl]
  rw [hfind, List.dedup_eq_self.2 hnd]
  obtain ⟨hcov, hsum⟩ := kahn_stages_spec store ids hnd hdn hrank
  obtain ⟨hflatnodup, hflatsub, _⟩ := kahn_stages_sound store ids hnd
  rw [if_neg (fun hcon => hcon hsum)]
  obtain ⟨executedF, logTail, hrun, hdomF, hkeyF, _, _, _⟩ :=
    runStagesGo_main g store ui ctx ids
      (kahnStages (succsOf store ids) (ids.length + 1)
        (ids.filter (fun tid => decide (initialDeg store ids tid = 0)))
        (initialDeg store ids))
      (fun _ => none) [] []
      (fun tid htid => hres tid (hflatsub tid htid))
      (by simp) (by simp) (by simpa using hflatnodup)
  refine ⟨_, _, hrun, ?_⟩
  have hval : ∀ tid ∈ ids, ∃ r, executedF tid = some r ∧ r.template_id = tid := by
    intro tid htid
    have hs : (executedF tid).isSome := (hdomF tid).2 (Or.inr (hcov tid htid))
    obtain ⟨r, hr⟩ := Option.isSome_iff_exists.1 hs
    exact ⟨r, hr, hkeyF tid r hr⟩
  exact filterMap_map_template_id executedF ids hval

/-- Witness for C1: the two-template witness store with `b` depending on `a`,
requested in the order `[b, a]`. -/
theorem execute_multiple_in_input_order_witness :
    ∃ rs log, execute_multiple_templates gOk wStore ["b", "a"] "u" {} = (.ok rs, log)
      ∧ rs.map (fun r => r.template_id) = ["b", "a"] :=
  execute_multiple_in_input_order gOk wStore ["b", "a"] "u" {}
    (by decide) (by decide) (by decide) ⟨wRank, by decide⟩

/-- No scheduled vertex lies on a restricted dependency cycle: its
predecessors are scheduled strictly earlier, so a cycle would descend
forever. -/
theorem stages_no_cycle (store : List AgentTemplate) (ids : List String)
    (hnd : ids.Nodup) :
    ∀ (k : Nat) (hk : k < (kahnStages (succsOf store ids) (ids.length + 1)
        (ids.filter (fun tid => decide (initialDeg store ids tid = 0)))
        (initialDeg store ids)).length) (v : String),
      v ∈ (kahnStages (succsOf store ids) (ids.length + 1)
        (ids.filter (fun tid => decide (initialDeg store ids tid = 0)))
        (initialDeg store ids)).get ⟨k, hk⟩ →
      ¬ Relation.TransGen (edgeIn store ids) v v := by
  obtain ⟨_, _, hOrd⟩ := kahn_stages_sound store ids hnd
  intro k
  induction k using Nat.strong_induction_on with
  | _ k ihk =>
      intro hk v hv hcyc
      rcases Relation.TransGen.tail'_iff.1 hcyc with ⟨b, hrtg, hedge⟩
      have hbcyc : Relation.TransGen (edgeIn store ids) b b :=
        Relation.TransGen.trans_left (Relation.TransGen.single hedge) hrtg
      have hbpred : b ∈ predsIn store ids v := hedge.2
      have hmem := hOrd k hk v hv b hbpred
      rcases mem_flatten_take _ k b hmem with ⟨j, hj, hjk, hbj⟩
      exact ihk j hjk hj b hbj hbcyc

/-! ### C3: structural errors abort the batch before any LLM call -/

/-- C3: when some requested id resolves to no stored template, or the
requested ids (a set, hence duplicate-free) contain a restricted dependency
cycle, `execute_multiple_templates` raises before any agent executes: the
result is an error and the call log is empty. -/
theorem execute_multiple_structural_error (g : LLMOracle) (store : List AgentTemplate)
    (ids : List String) (ui : String) (ctx : ExecContext)
    (h : (∃ tid ∈ ids, lookupTemplate store tid = none)
        ∨ (ids.Nodup ∧ HasRestrictedCycle store ids)) :
    ∃ msg, execute_multiple_templates g store ids ui ctx = (.error msg, []) := by
  rw [execute_multiple_templates_eq]
  cases hfind : ids.find? (fun tid => (lookupTemplate store tid).isNone) with
  | some tid => exact ⟨_, rfl⟩
  | none =>
      rcases h with ⟨tid, htid, hnone⟩ | ⟨hnd, hcyc⟩
      · have hno := List.find?_eq_none.1 hfind tid htid
        rw [hnone] at hno
        simp at hno
      · rw [List.dedup_eq_self.2 hnd]
        obtain ⟨hflatnodup, hflatsub, _⟩ := kahn_stages_sound store ids hnd
        obtain ⟨v, hvcyc⟩ := hcyc
        have hvids : v ∈ ids := by
          rcases Relation.TransGen.tail'_iff.1 hvcyc with ⟨b, _, hedge⟩
          exact hedge.1
        have hvnot : v ∉ (kahnStages (succsOf store ids) (ids.length + 1)
            (ids.filter (fun tid => decide (initialDeg store ids tid = 0)))
            (initialDeg store ids)).flatten := by
          intro hvf
          rw [← List.take_length (kahnStages (succsOf store ids) (ids.length + 1)
            (ids.filter (fun tid => decide (initialDeg store ids tid = 0)))
            (initialDeg store ids))] at hvf
          rcases mem_flatten_take _ _ v hvf with ⟨j, hj, _, hvj⟩
          exact stages_no_cycle store ids hnd j hj v hvj hvcyc
        have hlen : (kahnStages (succsOf store ids) (ids.length + 1)
            (ids.filter (fun tid => decide (initialDeg store ids tid = 0)))
            (initialDeg store ids)).flatten.length + 1 ≤ ids.length := by
          have hsp : (v :: (kahnStages (succsOf store ids) (ids.length + 1)
              (ids.filter (fun tid => decide (initialDeg store ids tid = 0)))
              (initialDeg store ids)).flatten).Nodup :=
            List.nodup_cons.2 ⟨hvnot, hflatnodup⟩
          have hsub : (v :: (kahnStages (succsOf store ids) (ids.length + 1)
              (ids.filter (fun tid => decide (initialDeg store ids tid = 0)))
              (initialDeg store ids)).flatten) ⊆ ids := by
            intro x hx
            rcases List.mem_cons.1 hx with h1 | h1
            · exact h1 ▸ hvids
            · exact hflatsub x h1
          simpa using (hsp.subperm hsub).length_le
        have hne : ((kahnStages (succsOf store ids) (ids.length + 1)
            (ids.filter (fun tid => decide (initialDeg store ids tid = 0)))
            (initialDeg store ids)).map List.length).sum ≠ ids.length := by
          rw [← List.length_flatten]
          omega
        rw [if_pos hne]
        exact ⟨_, rfl⟩

/-- Tracking one dependency edge `B ∈ depends_on(A)` through the stage loop:
when `A` is staged and `B` was executed before `A`'s stage (already executed,
or staged strictly earlier), the loop succeeds, `B`'s stored result `rB` is
fixed once written, every call of `A` carries `rB` among its dependency
results, and in the produced log every call of `B` precedes every call of
`A`. -/
theorem runStagesGo_AB (g : LLMOracle) (store : List AgentTemplate) (ui : String)
    (base : ExecContext) (ids : List String) (A B : String)
    (hBA : B ∈ depsListOf store A) :
    ∀ (stages : List (List String)) (executed : String → Option AgentExecutionResult)
      (log : List CallRecord) (P : List String),
      (∀ tid ∈ stages.flatten, (lookupTemplate store tid).isSome) →
      (∀ tid, (executed tid).isSome ↔ tid ∈ P) →
      (∀ tid r, executed tid = some r → r.template_id = tid) →
      (P ++ stages.flatten).Nodup →
      A ∈ stages.flatten →
      (∀ (k : Nat) (hk : k < stages.length), A ∈ stages.get ⟨k, hk⟩ →
        B ∈ P ∨ B ∈ (stages.take k).flatten) →
      (B ∈ P ∨ B ∈ stages.flatten) →
      ∃ executedF logTail rB,
        runStagesGo g store ui base ids stages executed log
          = (.ok (ids.filterMap executedF), log ++ logTail)
        ∧ (∀ tid r, executedF tid = some r → r.template_id = tid)
        ∧ executedF B = some rB
        ∧ (B ∈ P → executed B = some rB)
        ∧ (∀ rec ∈ logTail, rec.template_id = A →
            rB ∈ rec.context.dependency_results)
        ∧ (B ∈ stages.flatten → logSplitAfter logTail B A)
        ∧ (B ∈ P → (∀ rec ∈ logTail, rec.template_id ≠ B)
            ∧ (∃ rec ∈ logTail, rec.template_id = A)) := by
  intro stages
  induction stages with
  | nil =>
      intro executed log P _ _ _ _ hA _ _
      exact absurd hA (by simp)
  | cons stage rest ih =>
      intro executed log P hres hdom hkey hnd hA hBbefore hBany
      have hndf : (P ++ (stage ++ rest.flatten)).Nodup := by
        rwa [List.flatten_cons] at hnd
      have hPdisj : ∀ x ∈ P, x ∉ stage ++ rest.flatten := (List.nodup_append.1 hndf).2.2
      have hflnodup : (stage ++ rest.flatten).Nodup := (List.nodup_append.1 hndf).2.1
      have hsdisj : ∀ x ∈ stage, x ∉ rest.flatten := (List.nodup_append.1 hflnodup).2.2
      have hstage_res : ∀ tid ∈ stage, (lookupTemplate store tid).isSome := fun tid h1 =>
        hres tid (by rw [List.flatten_cons]; exact List.mem_append_left _ h1)
      obtain ⟨rs, slog, hstage, hmap, hrecs, hcov⟩ :=
        execStage_ok g store ui base executed stage hstage_res
      have hdom2 : ∀ tid, ((updateExecuted executed rs) tid).isSome ↔ tid ∈ P ++ stage := by
        intro tid
        rw [updateExecuted_isSome, hdom, hmap, List.mem_append]
      have hkey2 := updateExecuted_keyinv executed rs hkey
      have hnd2 : ((P ++ stage) ++ rest.flatten).Nodup := by
        rw [List.append_assoc]
        exact hndf
      have hres2 : ∀ tid ∈ rest.flatten, (lookupTemplate store tid).isSome := fun tid h1 =>
        hres tid (by rw [List.flatten_cons]; exact List.mem_append_right _ h1)
      rcases List.mem_append.1 (by rwa [List.flatten_cons] at hA) with hAs | hAr
      · -- A executes in this very stage; B must already be executed.
        have h0 : (0 : Nat) < (stage :: rest).length := by simp
        rcases hBbefore 0 h0 hAs with hBP | hBtake
        · obtain ⟨rB, hrB⟩ := Option.isSome_iff_exists.1 ((hdom B).2 hBP)
          have hBnotflat : B ∉ stage ++ rest.flatten := hPdisj B hBP
          have hBnots : B ∉ stage := fun hc => hBnotflat (List.mem_append_left _ hc)
          have hBnotr : B ∉ rest.flatten := fun hc => hBnotflat (List.mem_append_right _ hc)
          have hAnotr : A ∉ rest.flatten := hsdisj A hAs
          obtain ⟨executedF, restTail, hrun, hdomF, hkeyF, hpresF, hrecsF, _⟩ :=
            runStagesGo_main g store ui base ids rest (updateExecuted executed rs)
              (log ++ slog) (P ++ stage) hres2 hdom2 hkey2 hnd2
          have hexecF : executedF B = some rB := by
            rw [hpresF B (List.mem_append_left _ hBP)]
            rw [updateExecuted_of_not_mem _ _ _ (by rw [hmap]; exact hBnots)]
            exact hrB
          have hmemdep : rB ∈ dependencyOutputs store executed A :=
            List.mem_filterMap.2 ⟨B, hBA, hrB⟩
          have hdepne : dependencyOutputs store executed A ≠ [] :=
            List.ne_nil_of_mem hmemdep
          refine ⟨executedF, slog ++ restTail, rB, ?_, hkeyF, hexecF, fun _ => hrB,
            ?_, ?_, ?_⟩
          · simp only [runStagesGo, hstage]
            rw [hrun, List.append_assoc]
          · intro rec hrec hrecA
            rcases List.mem_append.1 hrec with h1 | h1
            · obtain ⟨_, hrctx⟩ := hrecs rec h1
              rw [hrctx, hrecA, stageCtx_dep base _ hdepne]
              exact hmemdep
            · have := hrecsF rec h1
              rw [hrecA] at this
              exact absurd this hAnotr
          · intro hBf
            exact absurd (by rwa [List.flatten_cons] at hBf) hBnotflat
          · intro _
            constructor
            · intro rec hrec hceq
              rcases List.mem_append.1 hrec with h1 | h1
              · have := (hrecs rec h1).1
                rw [hceq] at this
                exact hBnots this
              · have := hrecsF rec h1
                rw [hceq] at this
                exact hBnotr this
            · obtain ⟨rec, hr1, hr2⟩ := hcov A hAs
              exact ⟨rec, List.mem_append_left _ hr1, hr2⟩
        · simp at hBtake
      · -- A executes in a later stage.
        have hAnots : A ∉ stage := fun hc => hsdisj A hc hAr
        have hBbefore2 : ∀ (k : Nat) (hk : k < rest.length), A ∈ rest.get ⟨k, hk⟩ →
            B ∈ P ++ stage ∨ B ∈ (rest.take k).flatten := by
          intro k hk hAk
          have hk1 : k + 1 < (stage :: rest).length := by
            simp only [List.length_cons]
            omega
          rcases hBbefore (k + 1) hk1 hAk with hBP | hBtake
          · exact Or.inl (List.mem_append_left _ hBP)
          · rw [List.take_succ_cons, List.flatten_cons] at hBtake
            rcases List.mem_append.1 hBtake with h2 | h2
            · exact Or.inl (List.mem_append_right _ h2)
            · exact Or.inr h2
        have hBany2 : B ∈ P ++ stage ∨ B ∈ rest.flatten := by
          rcases hBany with hBP | hBf
          · exact Or.inl (List.mem_append_left _ hBP)
          · rcases List.mem_append.1 (by rwa [List.flatten_cons] at hBf) with h2 | h2
            · exact Or.inl (List.mem_append_right _ h2)
            · exact Or.inr h2
        obtain ⟨executedF, restTail, rB, hrun, hkeyF, hexecF, hpresB, hctx, hsplit, hPcase⟩ :=
          ih (updateExecuted executed rs) (log ++ slog) (P ++ stage)
            hres2 hdom2 hkey2 hnd2 hAr hBbefore2 hBany2
        refine ⟨executedF, slog ++ restTail, rB, ?_, hkeyF, hexecF, ?_, ?_, ?_, ?_⟩
        · simp only [runStagesGo, hstage]
          rw [hrun, List.append_assoc]
        · intro hBP
          have hBnots : B ∉ stage := fun hc =>
            hPdisj B hBP (List.mem_append_left _ hc)
          have h1 := hpresB (List.mem_append_left _ hBP)
          rwa [updateExecuted_of_not_mem _ _ _ (by rw [hmap]; exact hBnots)] at h1
        · intro rec hrec hrecA
          rcases List.mem_append.1 hrec with h1 | h1
          · have := (hrecs rec h1).1
            rw [hrecA] at this
            exact absurd this hAnots
          · exact hctx rec h1 hrecA
        · intro hBf
          rcases List.mem_append.1 (by rwa [List.flatten_cons] at hBf) with hBs | hBr
          · obtain ⟨hnoB, hArec⟩ := hPcase (List.mem_append_right _ hBs)
            obtain ⟨recB, hrB1, hrB2⟩ := hcov B hBs
            refine ⟨slog, restTail, rfl, ⟨recB, hrB1, hrB2⟩, hArec, ?_, hnoB⟩
            intro rec h1 hceq
            have := (hrecs rec h1).1
            rw [hceq] at this
            exact hAnots this
          · obtain ⟨l₁, l₂, heq, hB1, hA2, hnA1, hnB2⟩ := hsplit hBr
            refine ⟨slog ++ l₁, l₂, by rw [heq, List.append_assoc], ?_, hA2, ?_, hnB2⟩
            · obtain ⟨rec, hr1, hr2⟩ := hB1
              exact ⟨rec, List.mem_append_right _ hr1, hr2⟩
            · intro rec hrec
              rcases List.mem_append.1 hrec with h1 | h1
              · intro hceq
                have := (hrecs rec h1).1
                rw [hceq] at this
                exact hAnots this
              · exact hnA1 rec h1
        · intro hBP
          have hBnotflat : B ∉ stage ++ rest.flatten := hPdisj B hBP
          obtain ⟨hnoB, hArec⟩ := hPcase (List.mem_append_left _ hBP)
          constructor
          · intro rec hrec hceq
            rcases List.mem_append.1 hrec with h1 | h1
            · have := (hrecs rec h1).1
              rw [hceq] at this
              exact hBnotflat (List.mem_append_left _ this)
            · exact hnoB rec h1 hceq
          · obtain ⟨rec, hr1, hr2⟩ := hArec
            exact ⟨rec, List.mem_append_right _ hr1, hr2⟩

/-! ### C2: dependency results flow into the dependent agent's context -/

/-- C2: under the DAG hypotheses, if templates `A` and `B` are both requested
and `A` declares a dependency on `B`, the batch succeeds (whatever the oracle
does, so in particular when `B`'s LLM call raises and `B`'s result is the
degraded one), `B`'s stored result appears in the returned list, every LLM
call of `A` happens after every call of `B` and both happen, and every call
of `A` carries `B`'s result in its context's dependency results, with that
result's content among the context parts the prompt is built from. -/
theorem execute_multiple_dependency_context (g : LLMOracle) (store : List AgentTemplate)
    (ids : List String) (ui : String) (ctx : ExecContext) (A B : String)
    (hnd : ids.Nodup)
    (hres : ∀ tid ∈ ids, (lookupTemplate store tid).isSome)
    (hdn : ∀ tid ∈ ids, (depsListOf store tid).Nodup)
    (hrank : RankedDag store ids)
    (hA : A ∈ ids) (hB : B ∈ ids) (hBA : B ∈ depsListOf store A) :
    ∃ rs log rB, execute_multiple_templates g store ids ui ctx = (.ok rs, log)
      ∧ rB ∈ rs ∧ rB.template_id = B
      ∧ logSplitAfter log B A
      ∧ (∀ rec ∈ log, rec.template_id = A →
          rB ∈ rec.context.dependency_results
          ∧ rB.content ∈ buildContextParts rec.context) := by
  rw [execute_multiple_templates_eq]
  have hfind : ids.find? (fun tid => (lookupTemplate store tid).isNone) = none := by
    rw [List.find?_eq_none]
    intro x hx
    have hs := hres x hx
    cases hl : lookupTemplate store x with
    | none => rw [hl] at hs; exact absurd hs (by simp)
    | some t => simp [hl]
  rw [hfind, List.dedup_eq_self.2 hnd]
  obtain ⟨hcov, hsum⟩ := kahn_stages_spec store ids hnd hdn hrank
  obtain ⟨hflatnodup, hflatsub, hOrd⟩ := kahn_stages_sound store ids hnd
  rw [if_neg (fun hcon => hcon hsum)]
  have hBpred : B ∈ predsIn store ids A := (mem_predsIn store ids B A).2 ⟨hBA, hB⟩
  obtain ⟨executedF, logTail, rB, hrun, hkeyF, hexecF, _, hctx, hsplit, _⟩ :=
    runStagesGo_AB g store ui ctx ids A B hBA
      (kahnStages (succsOf store ids) (ids.length + 1)
        (ids.filter (fun tid => decide (initialDeg store ids tid = 0)))
        (initialDeg store ids))
      (fun _ => none) [] []
      (fun tid htid => hres tid (hflatsub tid htid))
      (by simp) (by simp) (by simpa using hflatnodup)
      (hcov A hA)
      (fun k hk hAk => Or.inr (hOrd k hk A hAk B hBpred))
      (Or.inr (hcov B hB))
  refine ⟨_, _, rB, hrun, List.mem_filterMap.2 ⟨B, hB, hexecF⟩,
    hkeyF B rB hexecF, ?_, ?_⟩
  · rw [List.nil_append]
    exact hsplit (hcov B hB)
  · intro rec hrec hrecA
    rw [List.nil_append] at hrec
    have hmem := hctx rec hrec hrecA
    exact ⟨hmem, content_mem_parts rec.context rB hmem⟩

/-- Witness for C2: the witness store with `b` depending on `a` under the
always-raising oracle, so `a`'s stored result is the degraded one; `b` still
runs, after `a`, with `a`'s degraded content in its context. -/
theorem execute_multiple_dependency_context_witness :
    ∃ rs log rB, execute_multiple_templates gBoom wStore ["b", "a"] "u" {} = (.ok rs, log)
      ∧ rB ∈ rs ∧ rB.template_id = "a"
      ∧ logSplitAfter log "a" "b"
      ∧ (∀ rec ∈ log, rec.template_id = "b" →
          rB ∈ rec.context.dependency_results
          ∧ rB.content ∈ buildContextParts rec.context) :=
  execute_multiple_dependency_context gBoom wStore ["b", "a"] "u" {} "b" "a"
    (by decide) (by decide) (by decide) ⟨wRank, by decide⟩
    (by decide) (by decide) (by decide)

/-- Witness for C3: requesting the self-dependent witness template `s`
(together with `a`) under any oracle yields an error with an empty call
log. -/
theorem execute_multiple_structural_error_witness :
    ∃ msg, execute_multiple_templates gOk wStore ["s", "a"] "u" {} = (.error msg, []) :=
  execute_multiple_structural_error gOk wStore ["s", "a"] "u" {}
    (Or.inr ⟨by decide, "s", Relation.TransGen.single ⟨by decide, by decide⟩⟩)

end ProtoBuild
